import Mathlib

/-!
# KS0108B dual-controller display driver (ks0108b.c)

A shallow embedding of the low-level functions of `src/ks0108b.c`
(`ks0108bh_*`) together with an observer of the parallel bus and a model of
the two 64-column controller halves, and the theorems that settle the
claims of the specification.

The driver state is the pair of globals `ks_X`, `ks_Y` (C `int`) plus the
ordered log of the calls made to `platform_pio_op`.  Arguments of type `u8`
are natural numbers; the conversion to `u8` is made explicit at each call
site with `u8`.
-/

namespace KS0108B

/-! ## Constants of the source -/

/-- Width of the display in pixels (`KS0108B_WIDTH`). -/
def KS0108B_WIDTH : Nat := 128

/-- Height of the display in pages (`KS0108B_HEIGHT`). -/
def KS0108B_HEIGHT : Nat := 8

/-- Command byte turning the display on (`KS0108B_CMD_ON`). -/
def KS0108B_CMD_ON : Nat := 0x3F

/-- Command byte turning the display off (`KS0108B_CMD_OFF`). -/
def KS0108B_CMD_OFF : Nat := 0x3E

/-- Column-set command (`KS0108B_CMD_X`). -/
def KS0108B_CMD_X : Nat := 0x40

/-- Mask of the column field (`KS0108B_CMD_X_MASK`). -/
def KS0108B_CMD_X_MASK : Nat := 63

/-- Page-set command (`KS0108B_CMD_Y`). -/
def KS0108B_CMD_Y : Nat := 0xB8

/-- Mask of the page field (`KS0108B_CMD_Y_MASK`). -/
def KS0108B_CMD_Y_MASK : Nat := 7

/-! ## Machine integers -/

/-- Conversion of a C integer value to `u8`. -/
def u8 (v : Int) : Nat := (v % 256).toNat

/-- Conversion of a C integer value to `size_t` (32-bit targets). -/
def size_t (v : Int) : Nat := (v % 4294967296).toNat

/-! ## Pins, pin operations and the driver state -/

/-- The control pins held in the globals `ks_cs1` .. `ks_rst`. -/
inductive Pin where
  | ks_cs1
  | ks_cs2
  | ks_rw
  | ks_rs
  | ks_en
  | ks_rst
  deriving DecidableEq, Repr

/-- One call of `platform_pio_op` as made by the macros `pin_set`,
`pin_clear` and `port_setval` (the port is always `ks_data`). -/
inductive PioOp where
  | pinSet (p : Pin)
  | pinClear (p : Pin)
  | portSetValue (val : Nat)
  deriving DecidableEq, Repr

/-- Driver state: the cached cursor `ks_X`, `ks_Y` and the log of pin
operations performed so far, oldest first. -/
structure KS where
  ks_X : Int
  ks_Y : Int
  log : List PioOp

/-- The external `platform_pio_op`: recorded in the log. -/
def platform_pio_op (op : PioOp) (s : KS) : KS :=
  { s with log := s.log ++ [op] }

/-- Macro `pin_set`. -/
def pin_set (p : Pin) (s : KS) : KS := platform_pio_op (PioOp.pinSet p) s

/-- Macro `pin_clear`. -/
def pin_clear (p : Pin) (s : KS) : KS := platform_pio_op (PioOp.pinClear p) s

/-- Macro `pin_toogle`: set, then clear. -/
def pin_toogle (p : Pin) (s : KS) : KS := pin_clear p (pin_set p s)

/-- Macro `port_setval` on the data port. -/
def port_setval (val : Nat) (s : KS) : KS := platform_pio_op (PioOp.portSetValue val) s

/-- A C loop `for( i = 0; i < n; i++ ) body` whose body does not modify
`i`. -/
def forLoop (n : Nat) (body : Nat → KS → KS) (s : KS) : KS :=
  (List.range n).foldl (fun st i => body i st) s

/-! ## Low-level functions -/

/-- `ks0108bh_write_cmd_cs1`: write a command to the first half. -/
def ks0108bh_write_cmd_cs1 (cmd : Nat) (s : KS) : KS :=
  let s := pin_set Pin.ks_cs1 s
  let s := pin_clear Pin.ks_cs2 s
  let s := pin_clear Pin.ks_rw s
  let s := pin_clear Pin.ks_rs s
  let s := port_setval cmd s
  pin_toogle Pin.ks_en s

/-- `ks0108bh_write_cmd_cs2`: write a command to the second half. -/
def ks0108bh_write_cmd_cs2 (cmd : Nat) (s : KS) : KS :=
  let s := pin_clear Pin.ks_cs1 s
  let s := pin_set Pin.ks_cs2 s
  let s := pin_clear Pin.ks_rw s
  let s := pin_clear Pin.ks_rs s
  let s := port_setval cmd s
  pin_toogle Pin.ks_en s

/-- `ks0108bh_write_cmd`: write a command to the whole display. -/
def ks0108bh_write_cmd (cmd : Nat) (s : KS) : KS :=
  let s := pin_set Pin.ks_cs1 s
  let s := pin_set Pin.ks_cs2 s
  let s := pin_clear Pin.ks_rw s
  let s := pin_clear Pin.ks_rs s
  let s := port_setval cmd s
  pin_toogle Pin.ks_en s

/-- `ks0108bh_gotox( u8 x )`. -/
def ks0108bh_gotox (x : Nat) (s : KS) : KS :=
  let s :=
    if x < KS0108B_WIDTH / 2 then
      let s := ks0108bh_write_cmd_cs1 (KS0108B_CMD_X ||| (x &&& KS0108B_CMD_X_MASK)) s
      ks0108bh_write_cmd_cs2 (KS0108B_CMD_X ||| (0 &&& KS0108B_CMD_X_MASK)) s
    else
      ks0108bh_write_cmd (KS0108B_CMD_X ||| (x &&& KS0108B_CMD_X_MASK)) s
  { s with ks_X := (x : Int) }

/-- `ks0108bh_gotoy( u8 y )`. -/
def ks0108bh_gotoy (y : Nat) (s : KS) : KS :=
  let y := y &&& KS0108B_CMD_Y_MASK
  let s := ks0108bh_write_cmd (KS0108B_CMD_Y ||| y) s
  { s with ks_Y := (y : Int) }

/-- `ks0108bh_gotoxy( u8 x, u8 y )`. -/
def ks0108bh_gotoxy (x y : Nat) (s : KS) : KS :=
  let s := ks0108bh_gotox x s
  ks0108bh_gotoy y s

/-- `ks0108bh_write_data( u8 data )`. -/
def ks0108bh_write_data (data : Nat) (s : KS) : KS :=
  let s :=
    if s.ks_X ≥ (KS0108B_WIDTH : Int) then
      ks0108bh_gotox 0 s
    else if s.ks_X < 64 then
      let s := pin_set Pin.ks_cs1 s
      pin_clear Pin.ks_cs2 s
    else
      let s := pin_clear Pin.ks_cs1 s
      pin_set Pin.ks_cs2 s
  let s := pin_clear Pin.ks_rw s
  let s := pin_set Pin.ks_rs s
  let s := port_setval data s
  let s := { s with ks_X := s.ks_X + 1 }
  pin_toogle Pin.ks_en s

/-- `ks0108bh_clear`. -/
def ks0108bh_clear (s : KS) : KS :=
  let s := ks0108bh_gotoxy 0 0 s
  let s := forLoop KS0108B_HEIGHT (fun _ s =>
    let s := forLoop KS0108B_WIDTH (fun _ s => ks0108bh_write_data 0 s) s
    ks0108bh_gotoxy 0 (u8 (s.ks_Y + 1)) s) s
  ks0108bh_gotoxy 0 0 s

/-- `ks0108bh_setall`. -/
def ks0108bh_setall (s : KS) : KS :=
  let s := ks0108bh_gotoxy 0 0 s
  let s := forLoop KS0108B_HEIGHT (fun _ s =>
    let s := forLoop KS0108B_WIDTH (fun _ s => ks0108bh_write_data 0xFF s) s
    ks0108bh_gotoxy 0 (u8 (s.ks_Y + 1)) s) s
  ks0108bh_gotoxy 0 0 s

/-! ## Fonts

The headers `font_5_7.h` and `font_8_16.h` are not part of the sources at
hand; the tables are parameters.  Glyphs are looked up by character code
(the offset `FIRST_CHAR` is part of the lookup), and the loop counters of
the blit are `u8`, which bounds the table dimensions. -/

/-- The table `font_5_7` (`char [][h][w]`, read through `font_5_7[0]`):
`W` is `FONT_WIDTH( font_5_7 )` and `glyph c i` is the `i`-th byte of the
row selected by character code `c`. -/
structure Font57 where
  W : Nat
  glyph : Nat → Nat → Int
  W_u8 : W < 256

/-- The table `font_8_16` (`char [][h][w]`): `W` is
`FONT_WIDTH( font_8_16 )`, `H` is `FONT_HEIGHT( font_8_16 )` and
`glyph c j i` is byte `i` of page-row `j` of character code `c`. -/
structure Font816 where
  W : Nat
  H : Nat
  glyph : Nat → Nat → Nat → Int
  W_u8 : W < 256
  H_u8 : H < 256

/-- Body of the loop of `ks0108bh_write_small` for one character `c`
(a non-zero `*str`). -/
def write_small_char (F : Font57) (c : Nat) (s : KS) : KS :=
  if c = 10 then
    ks0108bh_gotoxy 0 (u8 (s.ks_Y + 1)) s
  else if c = 12 then
    let s := ks0108bh_clear s
    ks0108bh_gotoxy 0 0 s
  else if c = 13 then
    ks0108bh_gotox 0 s
  else
    let s :=
      if size_t s.ks_X ≥ size_t ((KS0108B_WIDTH : Int) - F.W + 1) then
        ks0108bh_gotoxy 0 (u8 (s.ks_Y + 1)) s
      else s
    let s := forLoop F.W (fun i s => ks0108bh_write_data (u8 (F.glyph c i)) s) s
    ks0108bh_write_data 0 s

/-- `ks0108bh_write_small( const char *str )`: the string is the list of
its character codes; the loop stops at the first zero. -/
def ks0108bh_write_small (F : Font57) : List Nat → KS → KS
  | [], s => s
  | c :: str, s =>
    if c = 0 then s else ks0108bh_write_small F str (write_small_char F c s)

/-- Body of the loop of `ks0108bh_write_big` for one character `c`
(a non-zero `*str`). -/
def write_big_char (F : Font816) (c : Nat) (s : KS) : KS :=
  if c = 10 then
    ks0108bh_gotoxy 0 (u8 (s.ks_Y + 2)) s
  else if c = 12 then
    let s := ks0108bh_clear s
    ks0108bh_gotoxy 0 0 s
  else
    let s :=
      if size_t s.ks_X ≥ size_t ((KS0108B_WIDTH : Int) - F.W + 1) then
        ks0108bh_gotoxy 0 (u8 (s.ks_Y + 2)) s
      else s
    let s := forLoop F.H (fun j s =>
      let s := forLoop F.W (fun i s => ks0108bh_write_data (u8 (F.glyph c j i)) s) s
      ks0108bh_gotoxy (u8 (s.ks_X - F.W)) (u8 (s.ks_Y + 1)) s) s
    ks0108bh_gotoxy (u8 (s.ks_X + F.W)) (u8 (s.ks_Y - F.H)) s

/-- `ks0108bh_write_big( const char *str )`. -/
def ks0108bh_write_big (F : Font816) : List Nat → KS → KS
  | [], s => s
  | c :: str, s =>
    if c = 0 then s else ks0108bh_write_big F str (write_big_char F c s)

/-! ## Observing the bus

The pin log is read the way the controllers read the bus: the levels of the
lines are tracked, and a falling edge of the enable line latches one
transaction made of the levels of the other lines at that moment. -/

/-- Levels of the lines that make up a bus cycle: the two chip selects,
read/write, command/data, enable and the data port.  The reset line is not
part of a bus cycle. -/
structure Lines where
  cs1 : Bool
  cs2 : Bool
  rw : Bool
  rs : Bool
  en : Bool
  data : Nat
  deriving DecidableEq, Repr

/-- Which controller halves a transaction addresses (from the two chip
selects). -/
inductive Sel where
  | none
  | left
  | right
  | both
  deriving DecidableEq, Repr

/-- One latched bus transaction: `rw = false` is a write, `rs = false` a
command and `rs = true` data. -/
structure Txn where
  sel : Sel
  rw : Bool
  rs : Bool
  byte : Nat
  deriving DecidableEq, Repr

/-- A command write. -/
def Txn.cmd (sel : Sel) (byte : Nat) : Txn := ⟨sel, false, false, byte⟩

/-- A data write. -/
def Txn.dat (sel : Sel) (byte : Nat) : Txn := ⟨sel, false, true, byte⟩

/-- Selection given by the chip-select levels. -/
def selOf (cs1 cs2 : Bool) : Sel :=
  match cs1, cs2 with
  | true, true => Sel.both
  | true, false => Sel.left
  | false, true => Sel.right
  | false, false => Sel.none

/-- Effect of one pin operation on the line levels. -/
def Lines.apply (L : Lines) : PioOp → Lines
  | PioOp.pinSet Pin.ks_cs1 => { L with cs1 := true }
  | PioOp.pinSet Pin.ks_cs2 => { L with cs2 := true }
  | PioOp.pinSet Pin.ks_rw => { L with rw := true }
  | PioOp.pinSet Pin.ks_rs => { L with rs := true }
  | PioOp.pinSet Pin.ks_en => { L with en := true }
  | PioOp.pinSet Pin.ks_rst => L
  | PioOp.pinClear Pin.ks_cs1 => { L with cs1 := false }
  | PioOp.pinClear Pin.ks_cs2 => { L with cs2 := false }
  | PioOp.pinClear Pin.ks_rw => { L with rw := false }
  | PioOp.pinClear Pin.ks_rs => { L with rs := false }
  | PioOp.pinClear Pin.ks_en => { L with en := false }
  | PioOp.pinClear Pin.ks_rst => L
  | PioOp.portSetValue v => { L with data := v }

/-- The transaction latched from the line levels. -/
def Lines.latch (L : Lines) : Txn := ⟨selOf L.cs1 L.cs2, L.rw, L.rs, L.data⟩

/-- Line levels after a sequence of pin operations. -/
def linesAfter (L : Lines) (ops : List PioOp) : Lines := ops.foldl Lines.apply L

/-- Bus transactions seen in a pin log, starting from line levels `L`. -/
def busTrace (L : Lines) : List PioOp → List Txn
  | [] => []
  | op :: ops =>
    if op = PioOp.pinClear Pin.ks_en ∧ L.en = true then
      L.latch :: busTrace (L.apply op) ops
    else busTrace (L.apply op) ops

/-- Pin operations of one complete write cycle: chip selects, write
direction, command/data line, byte on the port, enable pulse. -/
def cycle (c1 c2 rs : Bool) (b : Nat) : List PioOp :=
  [ if c1 then PioOp.pinSet Pin.ks_cs1 else PioOp.pinClear Pin.ks_cs1,
    if c2 then PioOp.pinSet Pin.ks_cs2 else PioOp.pinClear Pin.ks_cs2,
    PioOp.pinClear Pin.ks_rw,
    if rs then PioOp.pinSet Pin.ks_rs else PioOp.pinClear Pin.ks_rs,
    PioOp.portSetValue b,
    PioOp.pinSet Pin.ks_en,
    PioOp.pinClear Pin.ks_en ]

/-- Pin operations of a list of write transactions, one cycle each. -/
def cycles : List Txn → List PioOp
  | [] => []
  | t :: ts =>
    cycle (t.sel = Sel.left ∨ t.sel = Sel.both) (t.sel = Sel.right ∨ t.sel = Sel.both)
      t.rs t.byte ++ cycles ts

/-! ## The two controller halves

Each half has a column pointer in 0..63, a page register and its display
RAM; a cell of the RAM is represented by the list of the bytes written to
it, newest first, so that both the stored byte and the number of writes are
visible. -/

/-- One controller half. -/
structure Half where
  col : Nat
  page : Nat
  ram : Nat → Nat → List Nat

/-- Effect of one transaction on a selected half: a column-set command
`0x40|c` latches the column, a page-set command `0xB8|p` latches the page,
a data write stores the byte at (page, column) and increments the column
modulo 64. -/
def Half.exec (h : Half) (t : Txn) : Half :=
  if t.rw then h
  else if t.rs then
    { h with
      ram := fun p c => if p = h.page ∧ c = h.col then t.byte :: h.ram p c else h.ram p c
      col := (h.col + 1) % 64 }
  else if t.byte / 64 = 1 then { h with col := t.byte % 64 }
  else if t.byte / 8 = 23 then { h with page := t.byte % 8 }
  else h

/-- The display: two halves. -/
structure Panel where
  left : Half
  right : Half

/-- Effect of one transaction on the display: it reaches every selected
half. -/
def Panel.exec (P : Panel) (t : Txn) : Panel :=
  { left := if t.sel = Sel.left ∨ t.sel = Sel.both then P.left.exec t else P.left
    right := if t.sel = Sel.right ∨ t.sel = Sel.both then P.right.exec t else P.right }

/-- Effect of a list of transactions on the display. -/
def Panel.run (P : Panel) (ts : List Txn) : Panel := ts.foldl Panel.exec P

/-- Write history of the cell at page `page` and logical column `x` in
0..127: columns 0..63 are in the left half, 64..127 in the right half at
local column `x - 64`. -/
def Panel.cell (P : Panel) (page x : Nat) : List Nat :=
  if x < 64 then P.left.ram page x else P.right.ram page (x - 64)

/-- The display as it stands after the pin log of driver state `s`, from
power-on line levels `L0` and display contents `P0`. -/
def panelAt (P0 : Panel) (L0 : Lines) (s : KS) : Panel :=
  P0.run (busTrace L0 s.log)

/-- Successive calls `ks0108bh_write_data( b )` for the bytes of `bs`, in
order. -/
def write_bytes (bs : List Nat) (s : KS) : KS :=
  bs.foldl (fun st b => ks0108bh_write_data b st) s

/-- The data writes of the bytes `bs` at consecutive logical columns from
`X` on: left half below column 64, right half from column 64. -/
def dataTxns : Nat → List Nat → List Txn
  | _, [] => []
  | X, b :: bs => Txn.dat (if X < 64 then Sel.left else Sel.right) b :: dataTxns (X + 1) bs

/-- The column pointers and page registers of the display agree with the
logical position (X, y): both pages are y; with X in the left half the left
pointer is X and the right pointer is 0; with X in the right half the right
pointer is X - 64. -/
def Panel.Addressed (P : Panel) (X y : Nat) : Prop :=
  P.left.page = y ∧ P.right.page = y ∧
  (X < 64 → P.left.col = X ∧ P.right.col = 0) ∧
  (64 ≤ X → X < 128 → P.right.col = X - 64)

/-- A display whose RAM has never been written. -/
def Panel.blank : Panel := ⟨⟨0, 0, fun _ _ => []⟩, ⟨0, 0, fun _ _ => []⟩⟩

/-- The transactions of a positioning at logical column `x` and page
`y`: the column-set(s), then the page-set. -/
def positionTxns (x y : Nat) : List Txn :=
  (if x < 64 then [Txn.cmd Sel.left (0x40 ||| x), Txn.cmd Sel.right 0x40]
   else [Txn.cmd Sel.both (0x40 ||| (x - 64))])
  ++ [Txn.cmd Sel.both (0xB8 ||| (y % 8))]

/-- The bus trace of a full sweep writing the byte `d`: for each page
p = 0..7 in increasing order a positioning at (0, p) followed by the 128
data writes of the page (64 to the left half, then 64 to the right half),
then the positioning that follows the last page (page 8 mod 8 = 0) and the
final positioning at (0, 0). -/
def sweepTxns (d : Nat) : List Txn :=
  (List.range 8).flatMap (fun p =>
      positionTxns 0 p
        ++ (List.replicate 64 (Txn.dat Sel.left d) ++ List.replicate 64 (Txn.dat Sel.right d)))
    ++ positionTxns 0 0 ++ positionTxns 0 0

/-- The function `f` only appends to the pin log, and what it appends and
the cursor it leaves depend on the cursor alone. -/
def Framed (f : KS → KS) : Prop :=
  ∀ x y l, f ⟨x, y, l⟩
    = ⟨(f ⟨x, y, []⟩).ks_X, (f ⟨x, y, []⟩).ks_Y, l ++ (f ⟨x, y, []⟩).log⟩

/-- The bytes of the glyph of character `c` in the small font, as
`ks0108bh_write_small` passes them to `ks0108bh_write_data`: columns
0 .. W-1. -/
def glyphRow57 (F : Font57) (c : Nat) : List Nat :=
  (List.range F.W).map (fun i => u8 (F.glyph c i))

/-- The bytes of page-row `j` of the glyph of character `c` in the big
font, columns 0 .. W-1. -/
def glyphRow816 (F : Font816) (c j : Nat) : List Nat :=
  (List.range F.W).map (fun i => u8 (F.glyph c j i))

/-- The cursor is inside the display: 0 <= ks_X <= 128 and 0 <= ks_Y <= 7. -/
def CursorInRange (s : KS) : Prop :=
  0 ≤ s.ks_X ∧ s.ks_X ≤ 128 ∧ 0 ≤ s.ks_Y ∧ s.ks_Y ≤ 7

instance (s : KS) : Decidable (CursorInRange s) := by
  unfold CursorInRange
  infer_instance

/-! ## The Lua entry points

The Lua stack is represented by the arguments themselves: the string of
the first argument, and for `ks0108b_write` the list of the arguments that
follow it, `none` standing for nil. -/

/-- Font selector `KS0108B_SMALL` of `enum KS0108B_FONT`. -/
def KS0108B_SMALL : Nat := 0

/-- Font selector `KS0108B_BIG` of `enum KS0108B_FONT`. -/
def KS0108B_BIG : Nat := 1

/-- `luaL_optinteger( L, n, d )` for an argument index `n >= 2`, over the
arguments `args` that follow the first one: the default `d` when the
argument is absent or nil. -/
def luaL_optinteger (args : List (Option Int)) (n : Nat) (d : Int) : Int :=
  match args[n - 2]? with
  | some (some v) => v
  | _ => d

/-- `ks0108b_gotoxy`: Lua `ks0108b.gotoxy( x, y )`. -/
def ks0108b_gotoxy (x y : Int) (s : KS) : KS :=
  ks0108bh_gotoxy (u8 (x - 1)) (u8 (y - 1)) s

/-- `ks0108b_write`: Lua `ks0108b.write( str, [ sz, [ x, y ] ] )`;
`lua_gettop( L )` is one more than the number of arguments after the
string. -/
def ks0108b_write (F5 : Font57) (F8 : Font816) (str : List Nat) (args : List (Option Int))
    (s : KS) : KS :=
  let x := u8 (luaL_optinteger args 3 1)
  let y := u8 (luaL_optinteger args 4 1)
  let char_size := u8 (luaL_optinteger args 2 (KS0108B_SMALL : Int))
  let s :=
    if 1 + args.length > 2 then ks0108bh_gotoxy (u8 ((x : Int) - 1)) (u8 ((y : Int) - 1)) s
    else s
  if char_size = KS0108B_BIG then ks0108bh_write_big F8 str s
  else ks0108bh_write_small F5 str s

/-- Modelled from the spec: `FONT_WIDTH( font_5_7 )`, the number of column
bytes of a small-font glyph.  The header `font_5_7.h` that declares the
table is not in the sources; the spec describes the glyph blit of the small
font as 6 bytes followed by 1 spacer. -/
def FONT_WIDTH_font_5_7 : Nat := 6

/-! ## Concrete inputs used to exercise the theorems -/

/-- A small font of width 5 with placeholder glyph bytes. -/
def sampleFont5 : Font57 := ⟨5, fun c i => c + i, by decide⟩

/-- A small font of the width the spec gives, with placeholder glyph
bytes. -/
def sampleFont6 : Font57 := ⟨FONT_WIDTH_font_5_7, fun c i => c + i, by decide⟩

/-- A big font of 8 columns and 2 page-rows with placeholder glyph bytes. -/
def sampleFont8 : Font816 := ⟨8, 2, fun c j i => c + 16 * j + i, by decide, by decide⟩

/-- The driver state at program start: zero-initialised globals, no pin
operation performed yet. -/
def KS.start : KS := ⟨0, 0, []⟩

/-- All lines low. -/
def Lines.low : Lines := ⟨false, false, false, false, false, 0⟩

/-! ## Bus observer: basic facts -/

theorem busTrace_append (L : Lines) (a b : List PioOp) :
    busTrace L (a ++ b) = busTrace L a ++ busTrace (linesAfter L a) b := by
  induction a generalizing L with
  | nil => simp [busTrace, linesAfter]
  | cons op ops ih =>
    simp only [List.cons_append, busTrace, linesAfter, List.foldl_cons]
    split
    · simp only [List.cons_append, List.cons.injEq, true_and]
      exact ih _
    · exact ih _

theorem linesAfter_append (L : Lines) (a b : List PioOp) :
    linesAfter L (a ++ b) = linesAfter (linesAfter L a) b := by
  simp [linesAfter]

theorem busTrace_cycle (L : Lines) (c1 c2 rs : Bool) (b : Nat) :
    busTrace L (cycle c1 c2 rs b) = [⟨selOf c1 c2, false, rs, b⟩] := by
  cases c1 <;> cases c2 <;> cases rs <;>
    simp [cycle, busTrace, Lines.apply, Lines.latch, selOf]

theorem linesAfter_cycle_en (L : Lines) (c1 c2 rs : Bool) (b : Nat) :
    linesAfter L (cycle c1 c2 rs b) = ⟨c1, c2, false, rs, false, b⟩ := by
  cases c1 <;> cases c2 <;> cases rs <;>
    simp [cycle, linesAfter, Lines.apply]

theorem busTrace_cycles (L : Lines) (ts : List Txn) (h : ∀ t ∈ ts, t.rw = false ∧ t.sel ≠ Sel.none) :
    busTrace L (cycles ts) = ts := by
  induction ts generalizing L with
  | nil => simp [cycles, busTrace]
  | cons t ts ih =>
    have ht := h t (List.mem_cons_self _ _)
    simp only [cycles, busTrace_append, busTrace_cycle]
    rw [ih _ (fun u hu => h u (List.mem_cons_of_mem _ hu))]
    obtain ⟨sel, rw, rs, byte⟩ := t
    obtain ⟨h1, h2⟩ := ht
    simp only at h1 h2
    subst h1
    cases sel <;> simp_all [selOf]

theorem cycles_append (a b : List Txn) : cycles (a ++ b) = cycles a ++ cycles b := by
  induction a with
  | nil => simp [cycles]
  | cons t ts ih => simp [cycles, ih]

/-! ## Pin logs of the primitives -/

theorem write_cmd_cs1_eq (cmd : Nat) (s : KS) :
    ks0108bh_write_cmd_cs1 cmd s = { s with log := s.log ++ cycles [Txn.cmd Sel.left cmd] } := by
  simp [ks0108bh_write_cmd_cs1, pin_set, pin_clear, pin_toogle, port_setval, platform_pio_op,
    cycles, cycle, Txn.cmd]

theorem write_cmd_cs2_eq (cmd : Nat) (s : KS) :
    ks0108bh_write_cmd_cs2 cmd s = { s with log := s.log ++ cycles [Txn.cmd Sel.right cmd] } := by
  simp [ks0108bh_write_cmd_cs2, pin_set, pin_clear, pin_toogle, port_setval, platform_pio_op,
    cycles, cycle, Txn.cmd]

theorem write_cmd_eq (cmd : Nat) (s : KS) :
    ks0108bh_write_cmd cmd s = { s with log := s.log ++ cycles [Txn.cmd Sel.both cmd] } := by
  simp [ks0108bh_write_cmd, pin_set, pin_clear, pin_toogle, port_setval, platform_pio_op,
    cycles, cycle, Txn.cmd]

theorem and_63 (x : Nat) : x &&& 63 = x % 64 := Nat.and_pow_two_sub_one_eq_mod x 6

theorem and_7 (y : Nat) : y &&& 7 = y % 8 := Nat.and_pow_two_sub_one_eq_mod y 3

theorem busTrace_emit (L0 : Lines) (l : List PioOp) (ts : List Txn)
    (h : ∀ t ∈ ts, t.rw = false ∧ t.sel ≠ Sel.none) :
    busTrace L0 (l ++ cycles ts) = busTrace L0 l ++ ts := by
  rw [busTrace_append, busTrace_cycles _ _ h]

theorem gotox_eq_left (x : Nat) (hx : x < 64) (s : KS) :
    ks0108bh_gotox x s =
      { ks_X := (x : Int), ks_Y := s.ks_Y,
        log := s.log ++ cycles [Txn.cmd Sel.left (0x40 ||| x), Txn.cmd Sel.right 0x40] } := by
  have h1 : x % 64 = x := Nat.mod_eq_of_lt hx
  have h2 : x < 128 / 2 := by omega
  simp [ks0108bh_gotox, KS0108B_WIDTH, KS0108B_CMD_X, KS0108B_CMD_X_MASK, h2, and_63, h1,
    write_cmd_cs1_eq, write_cmd_cs2_eq, cycles, List.append_assoc]

theorem gotox_eq_right (x : Nat) (hx : 64 ≤ x) (s : KS) :
    ks0108bh_gotox x s =
      { ks_X := (x : Int), ks_Y := s.ks_Y,
        log := s.log ++ cycles [Txn.cmd Sel.both (0x40 ||| (x % 64))] } := by
  have h2 : ¬ x < 128 / 2 := by omega
  simp [ks0108bh_gotox, KS0108B_WIDTH, KS0108B_CMD_X, KS0108B_CMD_X_MASK, h2, and_63,
    write_cmd_eq, cycles]

theorem gotoy_eq (y : Nat) (s : KS) :
    ks0108bh_gotoy y s =
      { ks_X := s.ks_X, ks_Y := ((y % 8 : Nat) : Int),
        log := s.log ++ cycles [Txn.cmd Sel.both (0xB8 ||| (y % 8))] } := by
  simp [ks0108bh_gotoy, KS0108B_CMD_Y, KS0108B_CMD_Y_MASK, and_7, write_cmd_eq, cycles]

theorem gotoxy_eq_left (x y : Nat) (hx : x < 64) (s : KS) :
    ks0108bh_gotoxy x y s =
      { ks_X := (x : Int), ks_Y := ((y % 8 : Nat) : Int),
        log := s.log ++ cycles [Txn.cmd Sel.left (0x40 ||| x), Txn.cmd Sel.right 0x40,
          Txn.cmd Sel.both (0xB8 ||| (y % 8))] } := by
  simp [ks0108bh_gotoxy, gotox_eq_left x hx, gotoy_eq, cycles, List.append_assoc]

theorem gotoxy_eq_right (x y : Nat) (hx : 64 ≤ x) (s : KS) :
    ks0108bh_gotoxy x y s =
      { ks_X := (x : Int), ks_Y := ((y % 8 : Nat) : Int),
        log := s.log ++ cycles [Txn.cmd Sel.both (0x40 ||| (x % 64)),
          Txn.cmd Sel.both (0xB8 ||| (y % 8))] } := by
  simp [ks0108bh_gotoxy, gotox_eq_right x hx, gotoy_eq, cycles, List.append_assoc]

theorem write_data_eq (d : Nat) (s : KS) (h : s.ks_X < 128) :
    ks0108bh_write_data d s =
      { ks_X := s.ks_X + 1, ks_Y := s.ks_Y,
        log := s.log ++ cycles [Txn.dat (if s.ks_X < 64 then Sel.left else Sel.right) d] } := by
  have h1 : ¬ (128 : Int) ≤ s.ks_X := by omega
  by_cases h2 : s.ks_X < 64
  · simp [ks0108bh_write_data, KS0108B_WIDTH, h1, h2, pin_set, pin_clear, pin_toogle,
      port_setval, platform_pio_op, cycles, cycle, Txn.dat]
  · simp [ks0108bh_write_data, KS0108B_WIDTH, h1, h2, pin_set, pin_clear, pin_toogle,
      port_setval, platform_pio_op, cycles, cycle, Txn.dat]

theorem u8_natCast (n : Nat) : u8 (n : Int) = n % 256 := by
  unfold u8
  omega

theorem or_0x40 : ∀ x, x < 64 → 0x40 ||| x = 64 + x := by decide

theorem or_0xB8 : ∀ y, y < 8 → 0xB8 ||| y = 184 + y := by decide

theorem panelAt_emit (P0 : Panel) (L0 : Lines) (s t : KS) (ts : List Txn)
    (h : ∀ u ∈ ts, u.rw = false ∧ u.sel ≠ Sel.none) (ht : t.log = s.log ++ cycles ts) :
    panelAt P0 L0 t = (panelAt P0 L0 s).run ts := by
  simp [panelAt, ht, busTrace_emit _ _ _ h, Panel.run]

theorem dataTxns_valid (X : Nat) (bs : List Nat) :
    ∀ u ∈ dataTxns X bs, u.rw = false ∧ u.sel ≠ Sel.none := by
  induction bs generalizing X with
  | nil => simp [dataTxns]
  | cons b bs ih =>
    intro u hu
    simp only [dataTxns, List.mem_cons] at hu
    rcases hu with rfl | hu
    · by_cases h : X < 64 <;> simp [Txn.dat, h]
    · exact ih _ u hu

theorem dataTxns_data (X : Nat) (bs : List Nat) :
    ∀ u ∈ dataTxns X bs, u.rs = true := by
  induction bs generalizing X with
  | nil => simp [dataTxns]
  | cons b bs ih =>
    intro u hu
    simp only [dataTxns, List.mem_cons] at hu
    rcases hu with rfl | hu
    · simp [Txn.dat]
    · exact ih _ u hu

theorem write_bytes_eq (bs : List Nat) (X : Nat) (s : KS) (hX : s.ks_X = (X : Int))
    (hn : X + bs.length ≤ 128) :
    write_bytes bs s =
      { ks_X := ((X + bs.length : Nat) : Int), ks_Y := s.ks_Y,
        log := s.log ++ cycles (dataTxns X bs) } := by
  induction bs generalizing X s with
  | nil =>
    obtain ⟨sx, sy, sl⟩ := s
    simp only at hX
    simp [write_bytes, dataTxns, cycles, hX]
  | cons b bs ih =>
    simp only [List.length_cons] at hn
    have hlt : s.ks_X < 128 := by omega
    have h1 : write_bytes (b :: bs) s = write_bytes bs (ks0108bh_write_data b s) := by
      simp [write_bytes]
    rw [h1, write_data_eq b s hlt, ih (X + 1) _ (by simp [hX]) (by omega)]
    have h64 : (s.ks_X < 64) ↔ (X < 64) := by omega
    simp only [dataTxns, h64, List.length_cons]
    have hc : cycles (Txn.dat (if X < 64 then Sel.left else Sel.right) b :: dataTxns (X + 1) bs)
        = cycles [Txn.dat (if X < 64 then Sel.left else Sel.right) b]
          ++ cycles (dataTxns (X + 1) bs) := by
      simp [cycles]
    rw [hc, List.append_assoc]
    congr 2
    omega

theorem exec_data (P : Panel) (X y b : Nat) (hA : P.Addressed X y) (hX : X < 128) :
    (P.exec (Txn.dat (if X < 64 then Sel.left else Sel.right) b)).Addressed (X + 1) y
    ∧ ∀ page c, (P.exec (Txn.dat (if X < 64 then Sel.left else Sel.right) b)).cell page c
        = if page = y ∧ c = X then b :: P.cell page c else P.cell page c := by
  obtain ⟨hl, hr, h1, h2⟩ := hA
  by_cases h : X < 64
  · obtain ⟨hc1, hc2⟩ := h1 h
    refine ⟨⟨?_, ?_, ?_, ?_⟩, ?_⟩
    · simp [Panel.exec, Half.exec, Txn.dat, h, hl]
    · simp [Panel.exec, Half.exec, Txn.dat, h, hr]
    · intro h3
      simp [Panel.exec, Half.exec, Txn.dat, h, hc1, hc2]
      omega
    · intro h3 h4
      have : X = 63 := by omega
      simp [Panel.exec, Half.exec, Txn.dat, h, hc2, this]
    · intro page c
      by_cases hc : c < 64
      · simp only [Panel.exec, Half.exec, Txn.dat, Panel.cell, h, hc, hl, hc1]
        simp
      · have hne : c ≠ X := by omega
        simp [Panel.exec, Half.exec, Txn.dat, Panel.cell, h, hc, hne]
  · have hc2 := h2 (by omega) hX
    refine ⟨⟨?_, ?_, ?_, ?_⟩, ?_⟩
    · simp [Panel.exec, Half.exec, Txn.dat, h, hl]
    · simp [Panel.exec, Half.exec, Txn.dat, h, hr]
    · intro h3
      omega
    · intro h3 h4
      simp [Panel.exec, Half.exec, Txn.dat, h, hc2]
      omega
    · intro page c
      by_cases hc : c < 64
      · have hne : c ≠ X := by omega
        simp [Panel.exec, Half.exec, Txn.dat, Panel.cell, h, hc, hne]
      · have hiff : (c - 64 = X - 64) ↔ (c = X) := by omega
        simp only [Panel.exec, Half.exec, Txn.dat, Panel.cell, h, hc, hr, hc2]
        simp [hiff]

theorem run_dataTxns (bs : List Nat) (X y : Nat) (P : Panel) (hA : P.Addressed X y)
    (hn : X + bs.length ≤ 128) :
    (P.run (dataTxns X bs)).Addressed (X + bs.length) y
    ∧ ∀ page c, (P.run (dataTxns X bs)).cell page c
        = if page = y ∧ X ≤ c ∧ c < X + bs.length then bs.getD (c - X) 0 :: P.cell page c
          else P.cell page c := by
  induction bs generalizing X P with
  | nil =>
    refine ⟨by simpa [dataTxns, Panel.run] using hA, ?_⟩
    intro page c
    have : ¬ (X ≤ c ∧ c < X) := by omega
    simp [dataTxns, Panel.run, this]
  | cons b bs ih =>
    simp only [List.length_cons] at hn
    obtain ⟨hA1, hcell1⟩ := exec_data P X y b hA (by omega)
    obtain ⟨hA2, hcell2⟩ := ih (X + 1) _ hA1 (by omega)
    have hrun : P.run (dataTxns X (b :: bs))
        = (P.exec (Txn.dat (if X < 64 then Sel.left else Sel.right) b)).run
            (dataTxns (X + 1) bs) := by
      simp [dataTxns, Panel.run]
    rw [hrun]
    refine ⟨?_, ?_⟩
    · have : X + (b :: bs).length = X + 1 + bs.length := by simp; omega
      rw [this]
      exact hA2
    · intro page c
      rw [hcell2 page c, hcell1 page c]
      simp only [List.length_cons]
      by_cases hp : page = y
      · by_cases hcX : c = X
        · subst hcX
          have : ¬ (c + 1 ≤ c ∧ c < c + 1 + bs.length) := by omega
          simp [hp, this]
        · by_cases hin : X + 1 ≤ c ∧ c < X + 1 + bs.length
          · have hin2 : X ≤ c ∧ c < X + (bs.length + 1) := by omega
            have hidx : c - X = (c - (X + 1)) + 1 := by omega
            simp only [hp, hin, hin2, hcX, and_self, and_false, if_true, if_false, true_and]
            rw [hidx, List.getD_cons_succ]
          · have hin2 : ¬ (X ≤ c ∧ c < X + (bs.length + 1)) := by omega
            simp [hp, hin, hin2, hcX]
      · simp [hp]

theorem positionTxns_valid (x y : Nat) :
    ∀ u ∈ positionTxns x y, u.rw = false ∧ u.sel ≠ Sel.none := by
  intro u hu
  by_cases h : x < 64 <;> simp [positionTxns, h] at hu <;>
    rcases hu with rfl | hu
  · simp [Txn.cmd]
  · rcases hu with rfl | rfl <;> simp [Txn.cmd]
  · simp [Txn.cmd]
  · subst hu
    simp [Txn.cmd]

theorem positionTxns_cmd (x y : Nat) : ∀ u ∈ positionTxns x y, u.rs = false := by
  intro u hu
  by_cases h : x < 64 <;> simp [positionTxns, h] at hu <;>
    rcases hu with rfl | hu
  · simp [Txn.cmd]
  · rcases hu with rfl | rfl <;> simp [Txn.cmd]
  · simp [Txn.cmd]
  · subst hu
    simp [Txn.cmd]

theorem gotoxy_eq (x y : Nat) (hx : x < 128) (s : KS) :
    ks0108bh_gotoxy x y s =
      { ks_X := (x : Int), ks_Y := ((y % 8 : Nat) : Int),
        log := s.log ++ cycles (positionTxns x y) } := by
  by_cases h : x < 64
  · rw [gotoxy_eq_left x y h]
    simp [positionTxns, h]
  · have h64 : x % 64 = x - 64 := by omega
    rw [gotoxy_eq_right x y (by omega), h64]
    simp [positionTxns, h]

theorem run_positionTxns (P : Panel) (x y : Nat) (hx : x < 128) (hy : y < 8) :
    (P.run (positionTxns x y)).Addressed x y
    ∧ (P.run (positionTxns x y)).left.ram = P.left.ram
    ∧ (P.run (positionTxns x y)).right.ram = P.right.ram := by
  have hy8 : y % 8 = y := Nat.mod_eq_of_lt hy
  have hB := or_0xB8 y hy
  have e1 : (184 + y) / 64 ≠ 1 := by omega
  have e2 : (184 + y) / 8 = 23 := by omega
  have e3 : (184 + y) % 8 = y := by omega
  by_cases h : x < 64
  · have hX := or_0x40 x h
    have e4 : (64 + x) / 64 = 1 := by omega
    have e5 : (64 + x) % 64 = x := by omega
    simp [positionTxns, h, hy8, hB, hX, Panel.run, Panel.exec, Half.exec, Txn.cmd,
      Panel.Addressed, e1, e2, e3, e4, e5]
  · have hX := or_0x40 (x - 64) (by omega)
    have e4 : (64 + (x - 64)) / 64 = 1 := by omega
    have e5 : (64 + (x - 64)) % 64 = x - 64 := by omega
    simp [positionTxns, h, hy8, hB, hX, Panel.run, Panel.exec, Half.exec, Txn.cmd,
      Panel.Addressed, e1, e2, e3, e4, e5]

theorem cell_of_ram_eq (P Q : Panel) (hl : Q.left.ram = P.left.ram)
    (hr : Q.right.ram = P.right.ram) (page c : Nat) : Q.cell page c = P.cell page c := by
  simp [Panel.cell, hl, hr]

/-! ## Loops and sweeps -/

theorem forLoop_succ (n : Nat) (body : Nat → KS → KS) (s : KS) :
    forLoop (n + 1) body s = body n (forLoop n body s) := by
  simp [forLoop, List.range_succ, List.foldl_append]

theorem forLoop_write_data (n d : Nat) (s : KS) :
    forLoop n (fun _ t => ks0108bh_write_data d t) s = write_bytes (List.replicate n d) s := by
  induction n with
  | zero => simp [forLoop, write_bytes]
  | succ n ih =>
    rw [forLoop_succ, ih, List.replicate_succ']
    simp [write_bytes, List.foldl_append]

theorem dataTxns_append (X : Nat) (a b : List Nat) :
    dataTxns X (a ++ b) = dataTxns X a ++ dataTxns (X + a.length) b := by
  induction a generalizing X with
  | nil => simp [dataTxns]
  | cons c a ih =>
    have h := ih (X + 1)
    have e : X + 1 + a.length = X + (a.length + 1) := by omega
    rw [e] at h
    simp [dataTxns, h]

theorem dataTxns_replicate_left (X n d : Nat) (h : X + n ≤ 64) :
    dataTxns X (List.replicate n d) = List.replicate n (Txn.dat Sel.left d) := by
  induction n generalizing X with
  | zero => simp [dataTxns]
  | succ n ih =>
    have hX : X < 64 := by omega
    simp [List.replicate_succ, dataTxns, hX, ih (X + 1) (by omega)]

theorem dataTxns_replicate_right (X n d : Nat) (h : 64 ≤ X) :
    dataTxns X (List.replicate n d) = List.replicate n (Txn.dat Sel.right d) := by
  induction n generalizing X with
  | zero => simp [dataTxns]
  | succ n ih =>
    have hX : ¬ X < 64 := by omega
    simp [List.replicate_succ, dataTxns, hX, ih (X + 1) (by omega)]

theorem dataTxns_row (d : Nat) :
    dataTxns 0 (List.replicate 128 d)
      = List.replicate 64 (Txn.dat Sel.left d) ++ List.replicate 64 (Txn.dat Sel.right d) := by
  have h : List.replicate 128 d = List.replicate 64 d ++ List.replicate 64 d := by
    rw [List.append_replicate_replicate]
  rw [h, dataTxns_append, dataTxns_replicate_left 0 64 d (by omega)]
  simp only [List.length_replicate]
  rw [dataTxns_replicate_right (0 + 64) 64 d (by omega)]

theorem positionTxns_mod (x y : Nat) : positionTxns x (y % 8) = positionTxns x y := by
  simp [positionTxns]

/-- One iteration of the outer loop of a sweep: 128 data writes, then the
positioning at the start of the next page. -/
theorem sweep_row_eq (d q : Nat) (t : KS) (hX : t.ks_X = 0) (hY : t.ks_Y = (q : Int)) :
    (let u := forLoop KS0108B_WIDTH (fun _ v => ks0108bh_write_data d v) t
     ks0108bh_gotoxy 0 (u8 (u.ks_Y + 1)) u)
      = { ks_X := 0, ks_Y := (((q + 1) % 8 : Nat) : Int),
          log := t.log ++ cycles (dataTxns 0 (List.replicate 128 d) ++ positionTxns 0 (q + 1)) } := by
  have hw := write_bytes_eq (List.replicate 128 d) 0 t (by simp [hX]) (by simp)
  simp only [KS0108B_WIDTH, forLoop_write_data, hw, hY]
  have hu : u8 ((q : Int) + 1) = (q + 1) % 256 := by
    have := u8_natCast (q + 1)
    simpa using this
  rw [hu, gotoxy_eq 0 _ (by omega)]
  have hm : (q + 1) % 256 % 8 = (q + 1) % 8 := by omega
  have hp : positionTxns 0 ((q + 1) % 256) = positionTxns 0 (q + 1) := by
    rw [← positionTxns_mod 0 ((q + 1) % 256), hm, positionTxns_mod]
  simp [hm, hp, cycles_append, List.append_assoc]

theorem sweep_rows_eq (d j : Nat) (t : KS) (hX : t.ks_X = 0) (hY : t.ks_Y = 0) :
    forLoop j (fun _ v =>
        let u := forLoop KS0108B_WIDTH (fun _ w => ks0108bh_write_data d w) v
        ks0108bh_gotoxy 0 (u8 (u.ks_Y + 1)) u) t
      = { ks_X := 0, ks_Y := ((j % 8 : Nat) : Int),
          log := t.log ++ cycles ((List.range j).flatMap (fun p =>
            dataTxns 0 (List.replicate 128 d) ++ positionTxns 0 (p + 1))) } := by
  induction j with
  | zero =>
    obtain ⟨tx, ty, tl⟩ := t
    simp only at hX hY
    simp [forLoop, cycles, hX, hY]
  | succ j ih =>
    rw [forLoop_succ, ih]
    have h := sweep_row_eq d (j % 8)
      { ks_X := 0, ks_Y := ((j % 8 : Nat) : Int),
        log := t.log ++ cycles ((List.range j).flatMap (fun p =>
          dataTxns 0 (List.replicate 128 d) ++ positionTxns 0 (p + 1))) } rfl rfl
    simp only at h
    simp only []
    rw [h]
    have hm : (j % 8 + 1) % 8 = (j + 1) % 8 := by omega
    have hp : positionTxns 0 (j % 8 + 1) = positionTxns 0 (j + 1) := by
      rw [← positionTxns_mod 0 (j % 8 + 1), hm, positionTxns_mod]
    simp [hm, hp, List.range_succ, List.flatMap_append, cycles_append, List.append_assoc]

theorem flatMap_shift (A : Nat → List Txn) (R : List Txn) (n : Nat) :
    A 0 ++ (List.range n).flatMap (fun p => R ++ A (p + 1))
      = (List.range n).flatMap (fun p => A p ++ R) ++ A n := by
  induction n with
  | zero => simp
  | succ n ih =>
    simp only [List.range_succ, List.flatMap_append, List.flatMap_singleton]
    rw [← List.append_assoc, ih]
    simp [List.append_assoc]

/-- The whole sweep, as `ks0108bh_clear` (d = 0) and `ks0108bh_setall`
(d = 0xFF) perform it. -/
theorem sweep_eq (d : Nat) (s : KS) :
    (let s1 := ks0108bh_gotoxy 0 0 s
     let s2 := forLoop KS0108B_HEIGHT (fun _ v =>
       let u := forLoop KS0108B_WIDTH (fun _ w => ks0108bh_write_data d w) v
       ks0108bh_gotoxy 0 (u8 (u.ks_Y + 1)) u) s1
     ks0108bh_gotoxy 0 0 s2)
      = { ks_X := 0, ks_Y := 0, log := s.log ++ cycles (sweepTxns d) } := by
  simp only [KS0108B_HEIGHT]
  rw [sweep_rows_eq d 8 _ (by rw [gotoxy_eq 0 0 (by omega)]; rfl)
    (by rw [gotoxy_eq 0 0 (by omega)]; rfl)]
  rw [gotoxy_eq 0 0 (by omega), gotoxy_eq 0 0 (by omega)]
  have hs := flatMap_shift (fun p => positionTxns 0 p) (dataTxns 0 (List.replicate 128 d)) 8
  have h8 : positionTxns 0 8 = positionTxns 0 0 := by
    rw [← positionTxns_mod 0 8]
  simp only [h8] at hs
  simp only [List.append_assoc, ← cycles_append]
  rw [← List.append_assoc (positionTxns 0 0), hs, sweepTxns, dataTxns_row]
  simp [List.append_assoc]

theorem clear_eq (s : KS) :
    ks0108bh_clear s = { ks_X := 0, ks_Y := 0, log := s.log ++ cycles (sweepTxns 0) } :=
  sweep_eq 0 s

theorem setall_eq (s : KS) :
    ks0108bh_setall s = { ks_X := 0, ks_Y := 0, log := s.log ++ cycles (sweepTxns 0xFF) } :=
  sweep_eq 0xFF s

theorem sweepTxns_valid (d : Nat) : ∀ u ∈ sweepTxns d, u.rw = false ∧ u.sel ≠ Sel.none := by
  intro u hu
  simp only [sweepTxns, List.mem_append, List.mem_flatMap, List.mem_range,
    List.mem_replicate] at hu
  rcases hu with (⟨p, _, (hu | hu | hu)⟩ | hu) | hu
  · exact positionTxns_valid _ _ u hu
  · rw [hu.2]; simp [Txn.dat]
  · rw [hu.2]; simp [Txn.dat]
  · exact positionTxns_valid _ _ u hu
  · exact positionTxns_valid _ _ u hu

theorem Panel.run_append (P : Panel) (a b : List Txn) :
    P.run (a ++ b) = (P.run a).run b := by
  simp [Panel.run, List.foldl_append]

theorem getD_replicate_lt (n d k : Nat) (h : k < n) : (List.replicate n d).getD k 0 = d := by
  rw [List.getD_eq_getElem _ 0 (by simpa using h)]
  exact List.getElem_replicate _ _

theorem run_sweep_pages (d n : Nat) (hn : n ≤ 8) (P : Panel) :
    ∀ page c,
      (P.run ((List.range n).flatMap (fun p =>
          positionTxns 0 p ++ dataTxns 0 (List.replicate 128 d)))).cell page c
        = if page < n ∧ c < 128 then d :: P.cell page c else P.cell page c := by
  induction n with
  | zero =>
    intro page c
    simp [Panel.run]
  | succ n ih =>
    intro page c
    have ih1 := ih (by omega)
    simp only [List.range_succ, List.flatMap_append, List.flatMap_singleton, List.flatMap_nil,
      List.append_nil, Panel.run_append]
    obtain ⟨hA, hl, hr⟩ := run_positionTxns
      (P.run ((List.range n).flatMap (fun p =>
          positionTxns 0 p ++ dataTxns 0 (List.replicate 128 d)))) 0 n (by omega) (by omega)
    obtain ⟨_, hcell⟩ := run_dataTxns (List.replicate 128 d) 0 n _ hA (by simp)
    simp only [List.length_replicate, Nat.zero_add, Nat.sub_zero] at hcell
    rw [hcell, cell_of_ram_eq _ _ hl hr, ih1]
    by_cases hc : c < 128
    · have hg := getD_replicate_lt 128 d c hc
      by_cases hp : page = n
      · have h1 : page = n ∧ 0 ≤ c ∧ c < 128 := ⟨hp, Nat.zero_le _, hc⟩
        have h2 : ¬ (page < n ∧ c < 128) := by omega
        have h3 : page < n + 1 ∧ c < 128 := by omega
        rw [if_pos h1, if_neg h2, if_pos h3, hg]
      · have h1 : ¬ (page = n ∧ 0 ≤ c ∧ c < 128) := by omega
        rw [if_neg h1]
        by_cases hp2 : page < n
        · have h2 : page < n ∧ c < 128 := ⟨hp2, hc⟩
          have h3 : page < n + 1 ∧ c < 128 := by omega
          rw [if_pos h2, if_pos h3]
        · have h2 : ¬ (page < n ∧ c < 128) := by omega
          have h3 : ¬ (page < n + 1 ∧ c < 128) := by omega
          rw [if_neg h2, if_neg h3]
    · have h1 : ¬ (page = n ∧ 0 ≤ c ∧ c < 128) := by omega
      have h2 : ¬ (page < n ∧ c < 128) := by omega
      have h3 : ¬ (page < n + 1 ∧ c < 128) := by omega
      rw [if_neg h1, if_neg h2, if_neg h3]

theorem run_sweepTxns (d : Nat) (P : Panel) (page c : Nat) :
    (P.run (sweepTxns d)).cell page c
      = if page < 8 ∧ c < 128 then d :: P.cell page c else P.cell page c := by
  have h1 := run_sweep_pages d 8 (by omega) P page c
  rw [sweepTxns, ← dataTxns_row, Panel.run_append, Panel.run_append]
  obtain ⟨_, hl, hr⟩ := run_positionTxns
    (P.run ((List.range 8).flatMap (fun p =>
        positionTxns 0 p ++ dataTxns 0 (List.replicate 128 d)))) 0 0 (by omega) (by omega)
  obtain ⟨_, hl2, hr2⟩ := run_positionTxns
    ((P.run ((List.range 8).flatMap (fun p =>
        positionTxns 0 p ++ dataTxns 0 (List.replicate 128 d)))).run (positionTxns 0 0))
    0 0 (by omega) (by omega)
  rw [cell_of_ram_eq _ _ (hl2.trans hl) (hr2.trans hr), h1]

theorem filter_data_position (x y : Nat) :
    (positionTxns x y).filter (fun t => t.rs) = [] := by
  rw [List.filter_eq_nil_iff]
  intro u hu
  simp [positionTxns_cmd x y u hu]

theorem filter_data_replicate (n : Nat) (sel : Sel) (d : Nat) :
    (List.replicate n (Txn.dat sel d)).filter (fun t => t.rs)
      = List.replicate n (Txn.dat sel d) := by
  rw [List.filter_eq_self]
  intro u hu
  rw [List.eq_of_mem_replicate hu]
  rfl

theorem sweep_pages_data_count (d n : Nat) :
    (((List.range n).flatMap (fun p =>
        positionTxns 0 p
          ++ (List.replicate 64 (Txn.dat Sel.left d) ++ List.replicate 64 (Txn.dat Sel.right d)))).filter
      (fun t => t.rs)).length = n * 128 := by
  induction n with
  | zero => simp
  | succ n ih =>
    simp only [List.range_succ, List.flatMap_append, List.flatMap_singleton, List.flatMap_nil,
      List.append_nil, List.filter_append, List.length_append, ih, filter_data_position,
      filter_data_replicate, List.length_replicate, List.length_nil]
    omega

theorem sweepTxns_data_count (d : Nat) :
    ((sweepTxns d).filter (fun t => t.rs)).length = 1024 := by
  simp only [sweepTxns, List.filter_append, List.length_append, sweep_pages_data_count,
    filter_data_position, List.length_nil]

theorem sweepTxns_data_byte (d : Nat) : ∀ t ∈ sweepTxns d, t.rs = true → t.byte = d := by
  intro u hu hd
  simp only [sweepTxns, List.mem_append, List.mem_flatMap, List.mem_range,
    List.mem_replicate] at hu
  rcases hu with (⟨p, _, (hu | hu | hu)⟩ | hu) | hu
  · rw [positionTxns_cmd _ _ u hu] at hd; cases hd
  · rw [hu.2]; simp [Txn.dat]
  · rw [hu.2]; simp [Txn.dat]
  · rw [positionTxns_cmd _ _ u hu] at hd; cases hd
  · rw [positionTxns_cmd _ _ u hu] at hd; cases hd

theorem sweepTxns_map (d : Nat) :
    (sweepTxns 0).map (fun t => if t.rs then { t with byte := d } else t) = sweepTxns d := by
  simp [sweepTxns, positionTxns, List.map_flatMap, Txn.dat, Txn.cmd]

/-! ## Framing: the functions only append to the log -/

theorem write_data_wrap_eq (d : Nat) (s : KS) (h : 128 ≤ s.ks_X) :
    ks0108bh_write_data d s =
      { ks_X := 1, ks_Y := s.ks_Y,
        log := s.log ++ (cycles [Txn.cmd Sel.left 0x40, Txn.cmd Sel.right 0x40]
          ++ [PioOp.pinClear Pin.ks_rw, PioOp.pinSet Pin.ks_rs, PioOp.portSetValue d,
              PioOp.pinSet Pin.ks_en, PioOp.pinClear Pin.ks_en]) } := by
  have h0 := gotox_eq_left 0 (by omega) s
  simp only [Nat.or_zero] at h0
  simp [ks0108bh_write_data, KS0108B_WIDTH, h, h0, pin_set, pin_clear, pin_toogle,
    port_setval, platform_pio_op, List.append_assoc]

theorem Framed.comp (f g : KS → KS) (hf : Framed f) (hg : Framed g) :
    Framed (fun s => g (f s)) := by
  intro x y l
  simp only
  rw [hf x y l, hg, hf x y []]
  simp only [List.nil_append]
  rw [hg _ _ (f ⟨x, y, []⟩).log]
  simp [List.append_assoc]

theorem Framed.ite (c : Int → Int → Prop) [∀ a b, Decidable (c a b)] (f g : KS → KS)
    (hf : Framed f) (hg : Framed g) :
    Framed (fun s => if c s.ks_X s.ks_Y then f s else g s) := by
  intro x y l
  simp only
  split
  · exact hf x y l
  · exact hg x y l

theorem Framed.ite_const (p : Prop) [Decidable p] (f g : KS → KS)
    (hf : Framed f) (hg : Framed g) :
    Framed (fun s => if p then f s else g s) := by
  intro x y l
  simp only
  split
  · exact hf x y l
  · exact hg x y l

theorem Framed.dep (g : Nat → Nat → KS → KS) (a b : Int → Int → Nat)
    (hg : ∀ v w, Framed (g v w)) :
    Framed (fun s => g (a s.ks_X s.ks_Y) (b s.ks_X s.ks_Y) s) := by
  intro x y l
  exact hg _ _ x y l

theorem Framed.id : Framed (fun s => s) := by
  intro x y l
  simp

theorem Framed.forLoop (n : Nat) (body : Nat → KS → KS) (hb : ∀ i, Framed (body i)) :
    Framed (forLoop n body) := by
  induction n with
  | zero =>
    intro x y l
    simp [KS0108B.forLoop]
  | succ n ih =>
    have h : KS0108B.forLoop (n + 1) body = fun s => body n (KS0108B.forLoop n body s) := by
      funext s
      exact forLoop_succ n body s
    rw [h]
    exact Framed.comp _ _ ih (hb n)

theorem framed_gotox (x : Nat) : Framed (ks0108bh_gotox x) := by
  intro a b l
  by_cases h : x < 64
  · simp [gotox_eq_left x h]
  · simp [gotox_eq_right x (by omega)]

theorem framed_gotoy (y : Nat) : Framed (ks0108bh_gotoy y) := by
  intro a b l
  simp [gotoy_eq]

theorem framed_gotoxy (x y : Nat) : Framed (ks0108bh_gotoxy x y) :=
  Framed.comp (ks0108bh_gotox x) (ks0108bh_gotoy y) (framed_gotox x) (framed_gotoy y)

theorem framed_gotoxy_dep (a b : Int → Int → Nat) :
    Framed (fun s => ks0108bh_gotoxy (a s.ks_X s.ks_Y) (b s.ks_X s.ks_Y) s) :=
  Framed.dep (fun v w s => ks0108bh_gotoxy v w s) a b (fun v w => framed_gotoxy v w)

theorem framed_write_data (d : Nat) : Framed (ks0108bh_write_data d) := by
  intro a b l
  by_cases h : a < 128
  · rw [write_data_eq d _ h, write_data_eq d ⟨a, b, []⟩ h]
    simp
  · rw [write_data_wrap_eq d _ (by simpa using h),
      write_data_wrap_eq d ⟨a, b, []⟩ (by simpa using h)]
    simp

theorem framed_clear : Framed ks0108bh_clear := by
  intro a b l
  simp [clear_eq]

theorem framed_form_feed : Framed (fun s => ks0108bh_gotoxy 0 0 (ks0108bh_clear s)) :=
  Framed.comp ks0108bh_clear (ks0108bh_gotoxy 0 0) framed_clear (framed_gotoxy 0 0)

theorem framed_write_small_char (F : Font57) (c : Nat) : Framed (write_small_char F c) := by
  have hwrap : Framed (fun s =>
      if size_t s.ks_X ≥ size_t ((KS0108B_WIDTH : Int) - F.W + 1) then
        ks0108bh_gotoxy 0 (u8 (s.ks_Y + 1)) s
      else s) :=
    Framed.ite (fun a _ => size_t a ≥ size_t ((KS0108B_WIDTH : Int) - F.W + 1))
      (fun s => ks0108bh_gotoxy 0 (u8 (s.ks_Y + 1)) s) (fun s => s)
      (framed_gotoxy_dep (fun _ _ => 0) (fun _ b => u8 (b + 1))) Framed.id
  have hblit := Framed.comp _ _ (Framed.comp _ _ hwrap
      (Framed.forLoop F.W (fun i s => ks0108bh_write_data (u8 (F.glyph c i)) s)
        (fun i => framed_write_data _)))
    (framed_write_data 0)
  exact Framed.ite_const (c = 10) _ _
    (framed_gotoxy_dep (fun _ _ => 0) (fun _ b => u8 (b + 1)))
    (Framed.ite_const (c = 12) _ _ framed_form_feed
      (Framed.ite_const (c = 13) _ _ (framed_gotox 0) hblit))

theorem framed_write_big_char (F : Font816) (c : Nat) : Framed (write_big_char F c) := by
  have hwrap : Framed (fun s =>
      if size_t s.ks_X ≥ size_t ((KS0108B_WIDTH : Int) - F.W + 1) then
        ks0108bh_gotoxy 0 (u8 (s.ks_Y + 2)) s
      else s) :=
    Framed.ite (fun a _ => size_t a ≥ size_t ((KS0108B_WIDTH : Int) - F.W + 1))
      (fun s => ks0108bh_gotoxy 0 (u8 (s.ks_Y + 2)) s) (fun s => s)
      (framed_gotoxy_dep (fun _ _ => 0) (fun _ b => u8 (b + 2))) Framed.id
  have hrow : ∀ j, Framed (fun s =>
      let s := forLoop F.W (fun i s => ks0108bh_write_data (u8 (F.glyph c j i)) s) s
      ks0108bh_gotoxy (u8 (s.ks_X - F.W)) (u8 (s.ks_Y + 1)) s) := fun j =>
    Framed.comp _ _
      (Framed.forLoop F.W (fun i s => ks0108bh_write_data (u8 (F.glyph c j i)) s)
        (fun i => framed_write_data _))
      (framed_gotoxy_dep (fun a _ => u8 (a - F.W)) (fun _ b => u8 (b + 1)))
  have hblit := Framed.comp _ _ (Framed.comp _ _ hwrap (Framed.forLoop F.H _ hrow))
    (framed_gotoxy_dep (fun a _ => u8 (a + F.W)) (fun _ b => u8 (b - F.H)))
  exact Framed.ite_const (c = 10) _ _
    (framed_gotoxy_dep (fun _ _ => 0) (fun _ b => u8 (b + 2)))
    (Framed.ite_const (c = 12) _ _ framed_form_feed hblit)

theorem framed_write_small (F : Font57) (str : List Nat) :
    Framed (ks0108bh_write_small F str) := by
  induction str with
  | nil =>
    intro x y l
    simp [ks0108bh_write_small]
  | cons c str ih =>
    by_cases h0 : c = 0
    · intro x y l
      simp [ks0108bh_write_small, h0]
    · have h : ks0108bh_write_small F (c :: str)
          = fun s => ks0108bh_write_small F str (write_small_char F c s) := by
        funext s
        simp [ks0108bh_write_small, h0]
      rw [h]
      exact Framed.comp _ _ (framed_write_small_char F c) ih

theorem framed_write_big (F : Font816) (str : List Nat) :
    Framed (ks0108bh_write_big F str) := by
  induction str with
  | nil =>
    intro x y l
    simp [ks0108bh_write_big]
  | cons c str ih =>
    by_cases h0 : c = 0
    · intro x y l
      simp [ks0108bh_write_big, h0]
    · have h : ks0108bh_write_big F (c :: str)
          = fun s => ks0108bh_write_big F str (write_big_char F c s) := by
        funext s
        simp [ks0108bh_write_big, h0]
      rw [h]
      exact Framed.comp _ _ (framed_write_big_char F c) ih

/-- The bus trace of a log that begins with a complete write cycle does not
depend on the line levels before it. -/
theorem busTrace_cycle_start (L L2 : Lines) (c1 c2 rs : Bool) (b : Nat) (rest : List PioOp) :
    busTrace L (cycle c1 c2 rs b ++ rest) = busTrace L2 (cycle c1 c2 rs b ++ rest) := by
  rw [busTrace_append, busTrace_append, busTrace_cycle, busTrace_cycle,
    linesAfter_cycle_en, linesAfter_cycle_en]

theorem busTrace_cycles_start (L L2 : Lines) (t : Txn) (ts : List Txn) (rest : List PioOp) :
    busTrace L (cycles (t :: ts) ++ rest) = busTrace L2 (cycles (t :: ts) ++ rest) := by
  simp only [cycles, List.append_assoc]
  exact busTrace_cycle_start L L2 _ _ _ _ _

theorem sweepTxns_cons (d : Nat) : ∃ t ts, sweepTxns d = t :: ts :=
  ⟨_, _, rfl⟩

theorem form_feed_eq (s : KS) :
    ks0108bh_gotoxy 0 0 (ks0108bh_clear s)
      = { ks_X := 0, ks_Y := 0,
          log := s.log ++ cycles (sweepTxns 0 ++ positionTxns 0 0) } := by
  rw [clear_eq, gotoxy_eq 0 0 (by omega)]
  simp [cycles_append, List.append_assoc]

theorem form_feed_valid :
    ∀ u ∈ sweepTxns 0 ++ positionTxns 0 0, u.rw = false ∧ u.sel ≠ Sel.none := by
  intro u hu
  rcases List.mem_append.1 hu with h | h
  · exact sweepTxns_valid 0 u h
  · exact positionTxns_valid 0 0 u h

/-- After a form feed the rest of a rendering run is the same from every
start state: `f` is the rendering of the rest of the string. -/
theorem after_form_feed (f : KS → KS) (hf : Framed f) (s1 s2 : KS) (L1 L2 : Lines) :
    ∃ E : List Txn,
      busTrace L1 (f (ks0108bh_gotoxy 0 0 (ks0108bh_clear s1))).log = busTrace L1 s1.log ++ E
      ∧ busTrace L2 (f (ks0108bh_gotoxy 0 0 (ks0108bh_clear s2))).log = busTrace L2 s2.log ++ E
      ∧ (f (ks0108bh_gotoxy 0 0 (ks0108bh_clear s1))).ks_X
          = (f (ks0108bh_gotoxy 0 0 (ks0108bh_clear s2))).ks_X
      ∧ (f (ks0108bh_gotoxy 0 0 (ks0108bh_clear s1))).ks_Y
          = (f (ks0108bh_gotoxy 0 0 (ks0108bh_clear s2))).ks_Y := by
  obtain ⟨t, ts, hts⟩ : ∃ t ts, sweepTxns 0 ++ positionTxns 0 0 = t :: ts := by
    obtain ⟨t, ts, h⟩ := sweepTxns_cons 0
    exact ⟨t, ts ++ positionTxns 0 0, by rw [h]; rfl⟩
  refine ⟨busTrace Lines.low (cycles (t :: ts) ++ (f ⟨0, 0, []⟩).log), ?_, ?_, ?_, ?_⟩
  · rw [form_feed_eq, hf, hts]
    simp only [List.append_assoc]
    rw [busTrace_append, busTrace_cycles_start _ Lines.low]
  · rw [form_feed_eq, hf, hts]
    simp only [List.append_assoc]
    rw [busTrace_append, busTrace_cycles_start _ Lines.low]
  · rw [form_feed_eq, form_feed_eq, hf, hf 0 0 (s2.log ++ _)]
  · rw [form_feed_eq, form_feed_eq, hf, hf 0 0 (s2.log ++ _)]

/-! ## Addressing engine -/

/-- C1: for every x < 64 and every start state, `ks0108bh_gotox x` appends
exactly two write cycles to the pin log, seen on the bus as a command to the
left half only with byte `0x40 | x` followed by a command to the right half
only with byte `0x40` (column 0); afterwards `ks_X = x` and `ks_Y` is
unchanged. -/
theorem gotox_left_split (x : Nat) (hx : x < 64) (s : KS) (L0 : Lines) :
    (ks0108bh_gotox x s).log
        = s.log ++ cycles [Txn.cmd Sel.left (0x40 ||| x), Txn.cmd Sel.right 0x40]
    ∧ busTrace L0 (ks0108bh_gotox x s).log
        = busTrace L0 s.log ++ [Txn.cmd Sel.left (0x40 ||| x), Txn.cmd Sel.right 0x40]
    ∧ (ks0108bh_gotox x s).ks_X = x
    ∧ (ks0108bh_gotox x s).ks_Y = s.ks_Y := by
  rw [gotox_eq_left x hx]
  refine ⟨rfl, ?_, rfl, rfl⟩
  exact busTrace_emit _ _ _ (by simp [Txn.cmd])

theorem gotox_left_split_witness :
    5 < 64 ∧
    ((ks0108bh_gotox 5 KS.start).log
        = KS.start.log ++ cycles [Txn.cmd Sel.left (0x40 ||| 5), Txn.cmd Sel.right 0x40]
    ∧ busTrace Lines.low (ks0108bh_gotox 5 KS.start).log
        = busTrace Lines.low KS.start.log
            ++ [Txn.cmd Sel.left (0x40 ||| 5), Txn.cmd Sel.right 0x40]
    ∧ (ks0108bh_gotox 5 KS.start).ks_X = (5 : Nat)
    ∧ (ks0108bh_gotox 5 KS.start).ks_Y = KS.start.ks_Y) :=
  ⟨by decide, gotox_left_split 5 (by decide) KS.start Lines.low⟩

/-- C2: for every x with 64 <= x < 128 and every start state,
`ks0108bh_gotox x` appends exactly one write cycle, seen on the bus as one
command to both halves with byte `0x40 | (x - 64)`; afterwards `ks_X = x`
and `ks_Y` is unchanged. -/
theorem gotox_right_both (x : Nat) (hlo : 64 ≤ x) (hhi : x < 128) (s : KS) (L0 : Lines) :
    (ks0108bh_gotox x s).log = s.log ++ cycles [Txn.cmd Sel.both (0x40 ||| (x - 64))]
    ∧ busTrace L0 (ks0108bh_gotox x s).log
        = busTrace L0 s.log ++ [Txn.cmd Sel.both (0x40 ||| (x - 64))]
    ∧ (ks0108bh_gotox x s).ks_X = x
    ∧ (ks0108bh_gotox x s).ks_Y = s.ks_Y := by
  have h : x % 64 = x - 64 := by omega
  rw [gotox_eq_right x hlo, h]
  refine ⟨rfl, ?_, rfl, rfl⟩
  exact busTrace_emit _ _ _ (by simp [Txn.cmd])

theorem gotox_right_both_witness :
    64 ≤ 100 ∧ 100 < 128 ∧
    ((ks0108bh_gotox 100 KS.start).log
        = KS.start.log ++ cycles [Txn.cmd Sel.both (0x40 ||| (100 - 64))]
    ∧ busTrace Lines.low (ks0108bh_gotox 100 KS.start).log
        = busTrace Lines.low KS.start.log ++ [Txn.cmd Sel.both (0x40 ||| (100 - 64))]
    ∧ (ks0108bh_gotox 100 KS.start).ks_X = (100 : Nat)
    ∧ (ks0108bh_gotox 100 KS.start).ks_Y = KS.start.ks_Y) :=
  ⟨by decide, by decide, gotox_right_both 100 (by decide) (by decide) KS.start Lines.low⟩

/-- C3: for every 8-bit y and every start state, `ks0108bh_gotoy y` appends
exactly one write cycle, seen on the bus as one command to both halves with
byte `0xB8 | (y mod 8)` (which is `0xB8 | y` when y < 8), records
`ks_Y = y mod 8` and leaves `ks_X` unchanged. -/
theorem gotoy_page_mod8 (y : Nat) (hy : y < 256) (s : KS) (L0 : Lines) :
    (ks0108bh_gotoy y s).log = s.log ++ cycles [Txn.cmd Sel.both (0xB8 ||| (y % 8))]
    ∧ busTrace L0 (ks0108bh_gotoy y s).log
        = busTrace L0 s.log ++ [Txn.cmd Sel.both (0xB8 ||| (y % 8))]
    ∧ (y < 8 → busTrace L0 (ks0108bh_gotoy y s).log
        = busTrace L0 s.log ++ [Txn.cmd Sel.both (0xB8 ||| y)])
    ∧ (ks0108bh_gotoy y s).ks_Y = ((y % 8 : Nat) : Int)
    ∧ (ks0108bh_gotoy y s).ks_X = s.ks_X := by
  have _ := hy
  rw [gotoy_eq]
  have hb : busTrace L0 (s.log ++ cycles [Txn.cmd Sel.both (0xB8 ||| (y % 8))])
      = busTrace L0 s.log ++ [Txn.cmd Sel.both (0xB8 ||| (y % 8))] :=
    busTrace_emit _ _ _ (by simp [Txn.cmd])
  refine ⟨rfl, hb, ?_, rfl, rfl⟩
  intro h8
  have h : y % 8 = y := Nat.mod_eq_of_lt h8
  simpa [h] using hb

theorem gotoy_page_mod8_witness :
    13 < 256 ∧
    ((ks0108bh_gotoy 13 KS.start).log
        = KS.start.log ++ cycles [Txn.cmd Sel.both (0xB8 ||| (13 % 8))]
    ∧ busTrace Lines.low (ks0108bh_gotoy 13 KS.start).log
        = busTrace Lines.low KS.start.log ++ [Txn.cmd Sel.both (0xB8 ||| (13 % 8))]
    ∧ (13 < 8 → busTrace Lines.low (ks0108bh_gotoy 13 KS.start).log
        = busTrace Lines.low KS.start.log ++ [Txn.cmd Sel.both (0xB8 ||| 13)])
    ∧ (ks0108bh_gotoy 13 KS.start).ks_Y = ((13 % 8 : Nat) : Int)
    ∧ (ks0108bh_gotoy 13 KS.start).ks_X = KS.start.ks_X) :=
  ⟨by decide, gotoy_page_mod8 13 (by decide) KS.start Lines.low⟩

/-- C4: for every state with `ks_X < 128` and every byte d,
`ks0108bh_write_data d` appends exactly one write cycle, seen on the bus as
one data write of d addressed to the left half only when `ks_X < 64` and to
the right half only when `64 <= ks_X < 128` (no command is emitted); `ks_X`
is incremented by exactly one and `ks_Y` is unchanged. -/
theorem write_data_one_half (d : Nat) (s : KS) (L0 : Lines) (h : s.ks_X < 128) :
    (ks0108bh_write_data d s).log
        = s.log ++ cycles [Txn.dat (if s.ks_X < 64 then Sel.left else Sel.right) d]
    ∧ busTrace L0 (ks0108bh_write_data d s).log
        = busTrace L0 s.log ++ [Txn.dat (if s.ks_X < 64 then Sel.left else Sel.right) d]
    ∧ (ks0108bh_write_data d s).ks_X = s.ks_X + 1
    ∧ (ks0108bh_write_data d s).ks_Y = s.ks_Y := by
  rw [write_data_eq d s h]
  refine ⟨rfl, ?_, rfl, rfl⟩
  refine busTrace_emit _ _ _ ?_
  intro t ht
  simp only [List.mem_singleton] at ht
  subst ht
  by_cases h2 : s.ks_X < 64 <;> simp [Txn.dat, h2]

theorem write_data_one_half_witness :
    (⟨70, 3, []⟩ : KS).ks_X < 128 ∧
    ((ks0108bh_write_data 0xA5 ⟨70, 3, []⟩).log
        = (⟨70, 3, []⟩ : KS).log
            ++ cycles [Txn.dat (if (⟨70, 3, []⟩ : KS).ks_X < 64 then Sel.left else Sel.right) 0xA5]
    ∧ busTrace Lines.low (ks0108bh_write_data 0xA5 ⟨70, 3, []⟩).log
        = busTrace Lines.low (⟨70, 3, []⟩ : KS).log
            ++ [Txn.dat (if (⟨70, 3, []⟩ : KS).ks_X < 64 then Sel.left else Sel.right) 0xA5]
    ∧ (ks0108bh_write_data 0xA5 ⟨70, 3, []⟩).ks_X = (⟨70, 3, []⟩ : KS).ks_X + 1
    ∧ (ks0108bh_write_data 0xA5 ⟨70, 3, []⟩).ks_Y = (⟨70, 3, []⟩ : KS).ks_Y) :=
  ⟨by decide, write_data_one_half 0xA5 ⟨70, 3, []⟩ Lines.low (by decide)⟩

/-- C8: for every x in 0..127, every 8-bit y and every start state, after
`ks0108bh_gotoxy x y` the cursor is (x, y mod 8), and the bus trace emitted
is what `ks0108bh_gotox x` emits from that state followed by what
`ks0108bh_gotoy y` emits (from any state). -/
theorem gotoxy_round_trip (x y : Nat) (hx : x < 128) (hy : y < 256) (s : KS) (L0 : Lines) :
    (ks0108bh_gotoxy x y s).ks_X = x
    ∧ (ks0108bh_gotoxy x y s).ks_Y = ((y % 8 : Nat) : Int)
    ∧ busTrace L0 (ks0108bh_gotoxy x y s).log
        = busTrace L0 s.log
          ++ (if x < 64 then [Txn.cmd Sel.left (0x40 ||| x), Txn.cmd Sel.right 0x40]
              else [Txn.cmd Sel.both (0x40 ||| (x - 64))])
          ++ [Txn.cmd Sel.both (0xB8 ||| (y % 8))]
    ∧ busTrace L0 (ks0108bh_gotox x s).log
        = busTrace L0 s.log
          ++ (if x < 64 then [Txn.cmd Sel.left (0x40 ||| x), Txn.cmd Sel.right 0x40]
              else [Txn.cmd Sel.both (0x40 ||| (x - 64))])
    ∧ ∀ t : KS, busTrace L0 (ks0108bh_gotoy y t).log
        = busTrace L0 t.log ++ [Txn.cmd Sel.both (0xB8 ||| (y % 8))] := by
  have _ := hy
  refine ⟨?_, ?_, ?_, ?_, ?_⟩
  · rw [gotoxy_eq x y hx]
  · rw [gotoxy_eq x y hx]
  · rw [gotoxy_eq x y hx]
    simp only
    rw [busTrace_emit _ _ _ (positionTxns_valid x y), positionTxns, List.append_assoc]
  · by_cases h : x < 64
    · rw [gotox_eq_left x h]
      simp only [h, if_true]
      exact busTrace_emit _ _ _ (by simp [Txn.cmd])
    · have h64 : x % 64 = x - 64 := by omega
      rw [gotox_eq_right x (by omega), h64]
      simp only [h, if_false]
      exact busTrace_emit _ _ _ (by simp [Txn.cmd])
  · intro t
    rw [gotoy_eq]
    exact busTrace_emit _ _ _ (by simp [Txn.cmd])

theorem gotoxy_round_trip_witness :
    70 < 128 ∧ 11 < 256 ∧
    ((ks0108bh_gotoxy 70 11 KS.start).ks_X = (70 : Nat)
    ∧ (ks0108bh_gotoxy 70 11 KS.start).ks_Y = ((11 % 8 : Nat) : Int)
    ∧ busTrace Lines.low (ks0108bh_gotoxy 70 11 KS.start).log
        = busTrace Lines.low KS.start.log
          ++ (if 70 < 64 then [Txn.cmd Sel.left (0x40 ||| 70), Txn.cmd Sel.right 0x40]
              else [Txn.cmd Sel.both (0x40 ||| (70 - 64))])
          ++ [Txn.cmd Sel.both (0xB8 ||| (11 % 8))]
    ∧ busTrace Lines.low (ks0108bh_gotox 70 KS.start).log
        = busTrace Lines.low KS.start.log
          ++ (if 70 < 64 then [Txn.cmd Sel.left (0x40 ||| 70), Txn.cmd Sel.right 0x40]
              else [Txn.cmd Sel.both (0x40 ||| (70 - 64))])
    ∧ ∀ t : KS, busTrace Lines.low (ks0108bh_gotoy 11 t).log
        = busTrace Lines.low t.log ++ [Txn.cmd Sel.both (0xB8 ||| (11 % 8))]) :=
  ⟨by decide, by decide, gotoxy_round_trip 70 11 (by decide) (by decide) KS.start Lines.low⟩

/-- C5: no seam across the controller boundary.  For every x < 128, y < 8
and bytes b_0 .. b_(n-1) with x + n <= 128, after `ks0108bh_gotoxy x y`
followed by the n calls of `ks0108bh_write_data`, the display cell at page y
and logical column x + k has received exactly the one new byte b_k (left
half for x + k < 64, right half at local column x + k - 64 otherwise), the
byte written at logical column 64 is at local column 0 of the right half,
no other cell has been written, and `ks_X = x + n`. -/
theorem no_seam_across_halves (x y : Nat) (bs : List Nat) (hx : x < 128) (hy : y < 8)
    (hn : x + bs.length ≤ 128) (s : KS) (L0 : Lines) (P0 : Panel) :
    (write_bytes bs (ks0108bh_gotoxy x y s)).ks_X = ((x + bs.length : Nat) : Int)
    ∧ (∀ k (hk : k < bs.length),
        (panelAt P0 L0 (write_bytes bs (ks0108bh_gotoxy x y s))).cell y (x + k)
          = bs[k] :: (panelAt P0 L0 s).cell y (x + k))
    ∧ (∀ k (hk : k < bs.length), x + k = 64 →
        (panelAt P0 L0 (write_bytes bs (ks0108bh_gotoxy x y s))).right.ram y 0
          = bs[k] :: (panelAt P0 L0 s).right.ram y 0)
    ∧ (∀ page c, ¬ (page = y ∧ x ≤ c ∧ c < x + bs.length) →
        (panelAt P0 L0 (write_bytes bs (ks0108bh_gotoxy x y s))).cell page c
          = (panelAt P0 L0 s).cell page c) := by
  have hg := gotoxy_eq x y hx s
  have hw := write_bytes_eq bs x (ks0108bh_gotoxy x y s) (by rw [hg]) hn
  have hp1 : panelAt P0 L0 (ks0108bh_gotoxy x y s)
      = (panelAt P0 L0 s).run (positionTxns x y) :=
    panelAt_emit P0 L0 s _ _ (positionTxns_valid x y) (by rw [hg])
  have hp2 : panelAt P0 L0 (write_bytes bs (ks0108bh_gotoxy x y s))
      = ((panelAt P0 L0 s).run (positionTxns x y)).run (dataTxns x bs) := by
    rw [← hp1]
    exact panelAt_emit P0 L0 _ _ _ (dataTxns_valid x bs) (by rw [hw])
  obtain ⟨hA, hl, hr⟩ := run_positionTxns (panelAt P0 L0 s) x y hx hy
  obtain ⟨_, hcell⟩ := run_dataTxns bs x y _ hA hn
  have hold := cell_of_ram_eq (panelAt P0 L0 s) _ hl hr
  have hk_cell : ∀ k (hk : k < bs.length),
      (panelAt P0 L0 (write_bytes bs (ks0108bh_gotoxy x y s))).cell y (x + k)
        = bs[k] :: (panelAt P0 L0 s).cell y (x + k) := by
    intro k hk
    rw [hp2, hcell, hold]
    have hin : x ≤ x + k ∧ x + k < x + bs.length := by omega
    have hidx : x + k - x = k := by omega
    rw [if_pos ⟨rfl, hin⟩, hidx, List.getD_eq_getElem bs 0 hk]
  refine ⟨by rw [hw], hk_cell, ?_, ?_⟩
  · intro k hk h64
    have := hk_cell k hk
    rw [h64] at this
    simpa [Panel.cell] using this
  · intro page c hc
    rw [hp2, hcell, hold, if_neg hc]

theorem no_seam_across_halves_witness :
    62 < 128 ∧ 3 < 8 ∧ 62 + [0x11, 0x22, 0x33, 0x44].length ≤ 128 ∧
    ((write_bytes [0x11, 0x22, 0x33, 0x44] (ks0108bh_gotoxy 62 3 KS.start)).ks_X
        = ((62 + [0x11, 0x22, 0x33, 0x44].length : Nat) : Int)
    ∧ (∀ k (hk : k < [0x11, 0x22, 0x33, 0x44].length),
        (panelAt Panel.blank Lines.low
            (write_bytes [0x11, 0x22, 0x33, 0x44] (ks0108bh_gotoxy 62 3 KS.start))).cell 3 (62 + k)
          = [0x11, 0x22, 0x33, 0x44][k] :: (panelAt Panel.blank Lines.low KS.start).cell 3 (62 + k))
    ∧ (∀ k (hk : k < [0x11, 0x22, 0x33, 0x44].length), 62 + k = 64 →
        (panelAt Panel.blank Lines.low
            (write_bytes [0x11, 0x22, 0x33, 0x44] (ks0108bh_gotoxy 62 3 KS.start))).right.ram 3 0
          = [0x11, 0x22, 0x33, 0x44][k] :: (panelAt Panel.blank Lines.low KS.start).right.ram 3 0)
    ∧ (∀ page c, ¬ (page = 3 ∧ 62 ≤ c ∧ c < 62 + [0x11, 0x22, 0x33, 0x44].length) →
        (panelAt Panel.blank Lines.low
            (write_bytes [0x11, 0x22, 0x33, 0x44] (ks0108bh_gotoxy 62 3 KS.start))).cell page c
          = (panelAt Panel.blank Lines.low KS.start).cell page c)) :=
  ⟨by decide, by decide, by decide,
    no_seam_across_halves 62 3 [0x11, 0x22, 0x33, 0x44] (by decide) (by decide) (by decide)
      KS.start Lines.low Panel.blank⟩

/-! ## Page operations -/

/-- C6: `ks0108bh_clear` is a total sweep from every start state.  Its bus
trace is `sweepTxns 0`: for each page p = 0..7 in increasing order a
column-set to column 0 and a page-set of p, then the 128 data writes of the
page (64 to the left half, then 64 to the right half), then two final
positionings at page 0.  It contains exactly 1024 data writes, each with
byte 0; on the display every one of the 128 x 8 cells receives exactly one
new byte 0; every call of `ks0108bh_write_data` in the sweep is made with
`ks_X < 128` (the state before write i of row j has `ks_X = i`), so the
wrap-around branch is never taken; and the cursor ends at (0, 0). -/
theorem clear_total_sweep (s : KS) (L0 : Lines) (P0 : Panel) :
    busTrace L0 (ks0108bh_clear s).log = busTrace L0 s.log ++ sweepTxns 0
    ∧ ((sweepTxns 0).filter (fun t => t.rs)).length = 8 * 128
    ∧ (∀ t ∈ sweepTxns 0, t.rs = true → t.byte = 0)
    ∧ (∀ page c, page < 8 → c < 128 →
        (panelAt P0 L0 (ks0108bh_clear s)).cell page c = 0 :: (panelAt P0 L0 s).cell page c)
    ∧ (∀ j i, j < 8 → i < 128 →
        (forLoop i (fun _ t => ks0108bh_write_data 0 t)
          (forLoop j (fun _ v =>
              let u := forLoop KS0108B_WIDTH (fun _ w => ks0108bh_write_data 0 w) v
              ks0108bh_gotoxy 0 (u8 (u.ks_Y + 1)) u)
            (ks0108bh_gotoxy 0 0 s))).ks_X = (i : Int))
    ∧ (ks0108bh_clear s).ks_X = 0
    ∧ (ks0108bh_clear s).ks_Y = 0 := by
  refine ⟨?_, sweepTxns_data_count 0, sweepTxns_data_byte 0, ?_, ?_, ?_, ?_⟩
  · rw [clear_eq]
    exact busTrace_emit _ _ _ (sweepTxns_valid 0)
  · intro page c hp hc
    rw [panelAt_emit P0 L0 s (ks0108bh_clear s) (sweepTxns 0) (sweepTxns_valid 0)
      (by rw [clear_eq]), run_sweepTxns, if_pos ⟨hp, hc⟩]
  · intro j i _ hi
    rw [sweep_rows_eq 0 j _ (by rw [gotoxy_eq 0 0 (by omega)]; rfl)
      (by rw [gotoxy_eq 0 0 (by omega)]; rfl), forLoop_write_data,
      write_bytes_eq (List.replicate i 0) 0 _ rfl (by simp; omega)]
    simp
  · rw [clear_eq]
  · rw [clear_eq]

/-- C7: `ks0108bh_setall` is the identical sweep: from every start state its
bus trace is the trace of `ks0108bh_clear` from that state with the byte of
every data write replaced by 0xFF (same transactions, selections, commands
and order), and it ends with the cursor at (0, 0). -/
theorem setall_same_sweep (s : KS) (L0 : Lines) :
    ∃ E : List Txn,
      busTrace L0 (ks0108bh_clear s).log = busTrace L0 s.log ++ E
      ∧ busTrace L0 (ks0108bh_setall s).log
          = busTrace L0 s.log ++ E.map (fun t => if t.rs then { t with byte := 0xFF } else t)
      ∧ (∀ t ∈ E, t.rs = true → t.byte = 0)
      ∧ (ks0108bh_setall s).ks_X = 0
      ∧ (ks0108bh_setall s).ks_Y = 0 := by
  refine ⟨sweepTxns 0, ?_, ?_, sweepTxns_data_byte 0, ?_, ?_⟩
  · rw [clear_eq]
    exact busTrace_emit _ _ _ (sweepTxns_valid 0)
  · rw [setall_eq, sweepTxns_map]
    exact busTrace_emit _ _ _ (sweepTxns_valid 0xFF)
  · rw [setall_eq]
  · rw [setall_eq]

/-! ## Text renderer: control characters -/

/-- C9: line feed.  For every cursor (x, y) with y < 8, rendering the single
character 10 emits one positioning (column-sets to column 0 and one
page-set) and no data write, and leaves the cursor at (0, (y + 1) mod 8) in
the small font and at (0, (y + 2) mod 8) in the big font. -/
theorem line_feed_wraps_rows (F5 : Font57) (F8 : Font816) (s : KS) (y : Nat) (hy : y < 8)
    (hY : s.ks_Y = (y : Int)) (L0 : Lines) :
    ((ks0108bh_write_small F5 [10] s).ks_X = 0
      ∧ (ks0108bh_write_small F5 [10] s).ks_Y = (((y + 1) % 8 : Nat) : Int)
      ∧ busTrace L0 (ks0108bh_write_small F5 [10] s).log
          = busTrace L0 s.log ++ [Txn.cmd Sel.left 0x40, Txn.cmd Sel.right 0x40,
              Txn.cmd Sel.both (0xB8 ||| ((y + 1) % 8))]
      ∧ (busTrace L0 (ks0108bh_write_small F5 [10] s).log).filter (fun t => t.rs)
          = (busTrace L0 s.log).filter (fun t => t.rs))
    ∧ ((ks0108bh_write_big F8 [10] s).ks_X = 0
      ∧ (ks0108bh_write_big F8 [10] s).ks_Y = (((y + 2) % 8 : Nat) : Int)
      ∧ busTrace L0 (ks0108bh_write_big F8 [10] s).log
          = busTrace L0 s.log ++ [Txn.cmd Sel.left 0x40, Txn.cmd Sel.right 0x40,
              Txn.cmd Sel.both (0xB8 ||| ((y + 2) % 8))]
      ∧ (busTrace L0 (ks0108bh_write_big F8 [10] s).log).filter (fun t => t.rs)
          = (busTrace L0 s.log).filter (fun t => t.rs)) := by
  have _ := hy
  have key : ∀ k : Nat, k < 248 →
      ks0108bh_gotoxy 0 (u8 (s.ks_Y + (k : Int))) s
        = { ks_X := 0, ks_Y := (((y + k) % 8 : Nat) : Int),
            log := s.log ++ cycles [Txn.cmd Sel.left 0x40, Txn.cmd Sel.right 0x40,
              Txn.cmd Sel.both (0xB8 ||| ((y + k) % 8))] } := by
    intro k hk
    have hu : u8 (s.ks_Y + (k : Int)) = y + k := by
      rw [hY]
      have := u8_natCast (y + k)
      rw [Nat.mod_eq_of_lt (by omega)] at this
      simpa using this
    rw [hu, gotoxy_eq_left 0 (y + k) (by omega)]
    simp
  have hb : ∀ k : Nat,
      busTrace L0 (s.log ++ cycles [Txn.cmd Sel.left 0x40, Txn.cmd Sel.right 0x40,
          Txn.cmd Sel.both (0xB8 ||| ((y + k) % 8))])
        = busTrace L0 s.log ++ [Txn.cmd Sel.left 0x40, Txn.cmd Sel.right 0x40,
            Txn.cmd Sel.both (0xB8 ||| ((y + k) % 8))] :=
    fun k => busTrace_emit _ _ _ (by simp [Txn.cmd])
  have hs : ks0108bh_write_small F5 [10] s = ks0108bh_gotoxy 0 (u8 (s.ks_Y + ((1 : Nat) : Int))) s := by
    simp [ks0108bh_write_small, write_small_char]
  have hg : ks0108bh_write_big F8 [10] s = ks0108bh_gotoxy 0 (u8 (s.ks_Y + ((2 : Nat) : Int))) s := by
    simp [ks0108bh_write_big, write_big_char]
  rw [hs, hg, key 1 (by omega), key 2 (by omega)]
  refine ⟨⟨rfl, rfl, hb 1, ?_⟩, ⟨rfl, rfl, hb 2, ?_⟩⟩
  · show (busTrace L0 (s.log ++ _)).filter _ = _
    rw [hb 1]
    simp [List.filter_append, Txn.cmd]
  · show (busTrace L0 (s.log ++ _)).filter _ = _
    rw [hb 2]
    simp [List.filter_append, Txn.cmd]

theorem line_feed_wraps_rows_witness :
    7 < 8 ∧ (⟨50, 7, []⟩ : KS).ks_Y = ((7 : Nat) : Int) ∧
    (((ks0108bh_write_small ⟨5, fun _ _ => 0, by decide⟩ [10] ⟨50, 7, []⟩).ks_X = 0
      ∧ (ks0108bh_write_small ⟨5, fun _ _ => 0, by decide⟩ [10] ⟨50, 7, []⟩).ks_Y
          = (((7 + 1) % 8 : Nat) : Int)
      ∧ busTrace Lines.low (ks0108bh_write_small ⟨5, fun _ _ => 0, by decide⟩ [10] ⟨50, 7, []⟩).log
          = busTrace Lines.low (⟨50, 7, []⟩ : KS).log
            ++ [Txn.cmd Sel.left 0x40, Txn.cmd Sel.right 0x40,
              Txn.cmd Sel.both (0xB8 ||| ((7 + 1) % 8))]
      ∧ (busTrace Lines.low
            (ks0108bh_write_small ⟨5, fun _ _ => 0, by decide⟩ [10] ⟨50, 7, []⟩).log).filter
            (fun t => t.rs)
          = (busTrace Lines.low (⟨50, 7, []⟩ : KS).log).filter (fun t => t.rs))
    ∧ ((ks0108bh_write_big ⟨8, 2, fun _ _ _ => 0, by decide, by decide⟩ [10] ⟨50, 7, []⟩).ks_X = 0
      ∧ (ks0108bh_write_big ⟨8, 2, fun _ _ _ => 0, by decide, by decide⟩ [10] ⟨50, 7, []⟩).ks_Y
          = (((7 + 2) % 8 : Nat) : Int)
      ∧ busTrace Lines.low
            (ks0108bh_write_big ⟨8, 2, fun _ _ _ => 0, by decide, by decide⟩ [10] ⟨50, 7, []⟩).log
          = busTrace Lines.low (⟨50, 7, []⟩ : KS).log
            ++ [Txn.cmd Sel.left 0x40, Txn.cmd Sel.right 0x40,
              Txn.cmd Sel.both (0xB8 ||| ((7 + 2) % 8))]
      ∧ (busTrace Lines.low
            (ks0108bh_write_big ⟨8, 2, fun _ _ _ => 0, by decide, by decide⟩ [10]
              ⟨50, 7, []⟩).log).filter (fun t => t.rs)
          = (busTrace Lines.low (⟨50, 7, []⟩ : KS).log).filter (fun t => t.rs))) :=
  ⟨by decide, rfl,
    line_feed_wraps_rows ⟨5, fun _ _ => 0, by decide⟩ ⟨8, 2, fun _ _ _ => 0, by decide, by decide⟩
      ⟨50, 7, []⟩ 7 (by decide) rfl Lines.low⟩

/-- C10: form feed resets everything.  In both fonts, rendering the single
character 12 from any state emits exactly the trace of `ks0108bh_clear`
followed by the trace of `ks0108bh_gotoxy 0 0` and leaves the cursor at
(0, 0); and for every string t and every two start states, rendering
12 :: t emits the same bus trace and ends with the same cursor. -/
theorem form_feed_resets (F5 : Font57) (F8 : Font816) (t : List Nat) (s1 s2 : KS)
    (L1 L2 : Lines) :
    (busTrace L1 (ks0108bh_clear s1).log = busTrace L1 s1.log ++ sweepTxns 0
      ∧ (∀ u : KS, busTrace L1 (ks0108bh_gotoxy 0 0 u).log
          = busTrace L1 u.log ++ positionTxns 0 0)
      ∧ busTrace L1 (ks0108bh_write_small F5 [12] s1).log
          = busTrace L1 s1.log ++ sweepTxns 0 ++ positionTxns 0 0
      ∧ busTrace L1 (ks0108bh_write_big F8 [12] s1).log
          = busTrace L1 s1.log ++ sweepTxns 0 ++ positionTxns 0 0
      ∧ (ks0108bh_write_small F5 [12] s1).ks_X = 0
      ∧ (ks0108bh_write_small F5 [12] s1).ks_Y = 0
      ∧ (ks0108bh_write_big F8 [12] s1).ks_X = 0
      ∧ (ks0108bh_write_big F8 [12] s1).ks_Y = 0)
    ∧ (∃ E : List Txn,
        busTrace L1 (ks0108bh_write_small F5 (12 :: t) s1).log = busTrace L1 s1.log ++ E
        ∧ busTrace L2 (ks0108bh_write_small F5 (12 :: t) s2).log = busTrace L2 s2.log ++ E
        ∧ (ks0108bh_write_small F5 (12 :: t) s1).ks_X
            = (ks0108bh_write_small F5 (12 :: t) s2).ks_X
        ∧ (ks0108bh_write_small F5 (12 :: t) s1).ks_Y
            = (ks0108bh_write_small F5 (12 :: t) s2).ks_Y)
    ∧ (∃ E : List Txn,
        busTrace L1 (ks0108bh_write_big F8 (12 :: t) s1).log = busTrace L1 s1.log ++ E
        ∧ busTrace L2 (ks0108bh_write_big F8 (12 :: t) s2).log = busTrace L2 s2.log ++ E
        ∧ (ks0108bh_write_big F8 (12 :: t) s1).ks_X
            = (ks0108bh_write_big F8 (12 :: t) s2).ks_X
        ∧ (ks0108bh_write_big F8 (12 :: t) s1).ks_Y
            = (ks0108bh_write_big F8 (12 :: t) s2).ks_Y) := by
  have hs : ∀ (str : List Nat) (s : KS), ks0108bh_write_small F5 (12 :: str) s
      = ks0108bh_write_small F5 str (ks0108bh_gotoxy 0 0 (ks0108bh_clear s)) := by
    intro str s
    simp [ks0108bh_write_small, write_small_char]
  have hg : ∀ (str : List Nat) (s : KS), ks0108bh_write_big F8 (12 :: str) s
      = ks0108bh_write_big F8 str (ks0108bh_gotoxy 0 0 (ks0108bh_clear s)) := by
    intro str s
    simp [ks0108bh_write_big, write_big_char]
  have hff : busTrace L1 (ks0108bh_gotoxy 0 0 (ks0108bh_clear s1)).log
      = busTrace L1 s1.log ++ sweepTxns 0 ++ positionTxns 0 0 := by
    rw [form_feed_eq, List.append_assoc]
    exact busTrace_emit _ _ _ form_feed_valid
  refine ⟨⟨?_, ?_, ?_, ?_, ?_, ?_, ?_, ?_⟩, ?_, ?_⟩
  · rw [clear_eq]
    exact busTrace_emit _ _ _ (sweepTxns_valid 0)
  · intro u
    rw [gotoxy_eq 0 0 (by omega)]
    exact busTrace_emit _ _ _ (positionTxns_valid 0 0)
  · rw [hs]
    exact hff
  · rw [hg]
    exact hff
  · rw [hs, form_feed_eq]
    rfl
  · rw [hs, form_feed_eq]
    rfl
  · rw [hg, form_feed_eq]
    rfl
  · rw [hg, form_feed_eq]
    rfl
  · rw [hs, hs]
    exact after_form_feed _ (framed_write_small F5 t) s1 s2 L1 L2
  · rw [hg, hg]
    exact after_form_feed _ (framed_write_big F8 t) s1 s2 L1 L2

/-! ## Wrap-around of the data write, bus cycles -/

theorem linesAfter_cycles_two (L : Lines) (a b : Txn) :
    linesAfter L (cycles [a, b])
      = ⟨decide (b.sel = Sel.left ∨ b.sel = Sel.both), decide (b.sel = Sel.right ∨ b.sel = Sel.both),
          false, b.rs, false, b.byte⟩ := by
  simp only [cycles, List.append_nil, linesAfter_append, linesAfter_cycle_en]

theorem busTrace_wrap_write (L0 : Lines) (l : List PioOp) (d : Nat) :
    busTrace L0 (l ++ (cycles [Txn.cmd Sel.left 0x40, Txn.cmd Sel.right 0x40]
        ++ [PioOp.pinClear Pin.ks_rw, PioOp.pinSet Pin.ks_rs, PioOp.portSetValue d,
            PioOp.pinSet Pin.ks_en, PioOp.pinClear Pin.ks_en]))
      = busTrace L0 l
          ++ [Txn.cmd Sel.left 0x40, Txn.cmd Sel.right 0x40, Txn.dat Sel.right d] := by
  rw [busTrace_append, busTrace_append, busTrace_cycles _ _ (by simp [Txn.cmd]),
    linesAfter_cycles_two]
  simp [busTrace, Lines.apply, Lines.latch, selOf, Txn.cmd, Txn.dat]

/-- C16: wrap-around safety net.  For every state with `ks_X >= 128` and
every byte d, `ks0108bh_write_data d` first emits exactly the transactions
of `ks0108bh_gotox 0` (left command 0x40, then right command 0x40), then
exactly one data write carrying d (the chip selects are those left by the
column-set, so it is addressed to the right half); afterwards `ks_X = 1`
and `ks_Y` is unchanged; no page-set command is emitted. -/
theorem write_data_wrap_net (d : Nat) (s : KS) (L0 : Lines) (h : 128 ≤ s.ks_X) :
    busTrace L0 (ks0108bh_write_data d s).log
        = busTrace L0 s.log
          ++ [Txn.cmd Sel.left 0x40, Txn.cmd Sel.right 0x40, Txn.dat Sel.right d]
    ∧ (∀ t : KS, busTrace L0 (ks0108bh_gotox 0 t).log
        = busTrace L0 t.log ++ [Txn.cmd Sel.left 0x40, Txn.cmd Sel.right 0x40])
    ∧ (∀ u ∈ [Txn.cmd Sel.left 0x40, Txn.cmd Sel.right 0x40, Txn.dat Sel.right d],
        ¬ (u.rs = false ∧ u.byte / 8 = 23))
    ∧ (ks0108bh_write_data d s).ks_X = 1
    ∧ (ks0108bh_write_data d s).ks_Y = s.ks_Y := by
  rw [write_data_wrap_eq d s h]
  refine ⟨busTrace_wrap_write L0 s.log d, ?_, ?_, rfl, rfl⟩
  · intro t
    have h0 := gotox_eq_left 0 (by omega) t
    simp only [Nat.or_zero] at h0
    rw [h0]
    exact busTrace_emit _ _ _ (by simp [Txn.cmd])
  · intro u hu
    simp only [List.mem_cons, List.mem_singleton, List.not_mem_nil, or_false] at hu
    rcases hu with rfl | rfl | rfl <;> simp [Txn.cmd, Txn.dat]

theorem write_data_wrap_net_witness :
    128 ≤ (⟨128, 5, []⟩ : KS).ks_X ∧
    (busTrace Lines.low (ks0108bh_write_data 0x3C ⟨128, 5, []⟩).log
        = busTrace Lines.low (⟨128, 5, []⟩ : KS).log
          ++ [Txn.cmd Sel.left 0x40, Txn.cmd Sel.right 0x40, Txn.dat Sel.right 0x3C]
    ∧ (∀ t : KS, busTrace Lines.low (ks0108bh_gotox 0 t).log
        = busTrace Lines.low t.log ++ [Txn.cmd Sel.left 0x40, Txn.cmd Sel.right 0x40])
    ∧ (∀ u ∈ [Txn.cmd Sel.left 0x40, Txn.cmd Sel.right 0x40, Txn.dat Sel.right 0x3C],
        ¬ (u.rs = false ∧ u.byte / 8 = 23))
    ∧ (ks0108bh_write_data 0x3C ⟨128, 5, []⟩).ks_X = 1
    ∧ (ks0108bh_write_data 0x3C ⟨128, 5, []⟩).ks_Y = (⟨128, 5, []⟩ : KS).ks_Y) :=
  ⟨by decide, write_data_wrap_net 0x3C ⟨128, 5, []⟩ Lines.low (by decide)⟩

/-- C17 (the code at the failing input): with `ks_X = 128` the data write of
`ks0108bh_write_data` is made when `ks_X` is 0 (the call ends with
`ks_X = 1`), yet it is addressed to the right half, not the left one: the
byte is stored at local column 0 of the right half (logical column 64),
nothing is stored in the left half, and the left column pointer is 0 while
`ks_X` is 1.  The state is reached through the Lua entry points: after
`ks0108b.gotoxy( 124, 1 )`, writing the character 65 in a small font of
width 5 puts the glyph at columns 123 .. 127 and the spacer byte 0 is then
written with `ks_X = 128`, to the right half. -/
theorem write_data_wrap_selects_right :
    busTrace Lines.low (ks0108bh_write_data 0xA5 ⟨128, 0, []⟩).log
        = [Txn.cmd Sel.left 0x40, Txn.cmd Sel.right 0x40, Txn.dat Sel.right 0xA5]
    ∧ (ks0108bh_write_data 0xA5 ⟨128, 0, []⟩).ks_X = 1
    ∧ (panelAt Panel.blank Lines.low (ks0108bh_write_data 0xA5 ⟨128, 0, []⟩)).cell 0 64 = [0xA5]
    ∧ (panelAt Panel.blank Lines.low (ks0108bh_write_data 0xA5 ⟨128, 0, []⟩)).cell 0 0 = []
    ∧ (panelAt Panel.blank Lines.low (ks0108bh_write_data 0xA5 ⟨128, 0, []⟩)).left.col = 0
    ∧ busTrace Lines.low
          (ks0108b_write sampleFont5 sampleFont8 [65] [] (ks0108b_gotoxy 124 1 KS.start)).log
        = [Txn.cmd Sel.both 0x7B, Txn.cmd Sel.both 0xB8,
           Txn.dat Sel.right 65, Txn.dat Sel.right 66, Txn.dat Sel.right 67,
           Txn.dat Sel.right 68, Txn.dat Sel.right 69,
           Txn.cmd Sel.left 0x40, Txn.cmd Sel.right 0x40, Txn.dat Sel.right 0]
    ∧ (ks0108b_write sampleFont5 sampleFont8 [65] [] (ks0108b_gotoxy 124 1 KS.start)).ks_X
        = 1 := by
  have hb := busTrace_wrap_write Lines.low [] 0xA5
  have hw := write_data_wrap_eq 0xA5 ⟨128, 0, []⟩ (by decide)
  simp only [List.nil_append] at hb hw
  have hbus : busTrace Lines.low (ks0108bh_write_data 0xA5 ⟨128, 0, []⟩).log
      = [Txn.cmd Sel.left 0x40, Txn.cmd Sel.right 0x40, Txn.dat Sel.right 0xA5] := by
    rw [hw]
    simpa [busTrace] using hb
  refine ⟨hbus, by rw [hw], ?_, ?_, ?_, by decide, by decide⟩ <;>
    simp [panelAt, hbus, Panel.run, Panel.exec, Half.exec, Panel.cell, Panel.blank,
      Txn.cmd, Txn.dat]

/-- C18: bus write cycle.  In every state, each of the three command
primitives performs exactly seven pin operations, in this order: the two
chip selects (set for a selected half, cleared for the other), read/write
cleared, command/data cleared, the byte on the data port, enable set,
enable cleared, and leaves the cursor unchanged; and in every state with
`ks_X < 128` the data write of `ks0108bh_write_data` performs the same
seven operations with the chip select of the half of `ks_X` and
command/data set.  No other pin is touched. -/
theorem bus_write_cycle (b : Nat) (s : KS) :
    ks0108bh_write_cmd_cs1 b s
        = { s with log := s.log ++
            [PioOp.pinSet Pin.ks_cs1, PioOp.pinClear Pin.ks_cs2, PioOp.pinClear Pin.ks_rw,
             PioOp.pinClear Pin.ks_rs, PioOp.portSetValue b,
             PioOp.pinSet Pin.ks_en, PioOp.pinClear Pin.ks_en] }
    ∧ ks0108bh_write_cmd_cs2 b s
        = { s with log := s.log ++
            [PioOp.pinClear Pin.ks_cs1, PioOp.pinSet Pin.ks_cs2, PioOp.pinClear Pin.ks_rw,
             PioOp.pinClear Pin.ks_rs, PioOp.portSetValue b,
             PioOp.pinSet Pin.ks_en, PioOp.pinClear Pin.ks_en] }
    ∧ ks0108bh_write_cmd b s
        = { s with log := s.log ++
            [PioOp.pinSet Pin.ks_cs1, PioOp.pinSet Pin.ks_cs2, PioOp.pinClear Pin.ks_rw,
             PioOp.pinClear Pin.ks_rs, PioOp.portSetValue b,
             PioOp.pinSet Pin.ks_en, PioOp.pinClear Pin.ks_en] }
    ∧ (s.ks_X < 128 →
        (ks0108bh_write_data b s).log
          = s.log ++
              (if s.ks_X < 64 then
                [PioOp.pinSet Pin.ks_cs1, PioOp.pinClear Pin.ks_cs2, PioOp.pinClear Pin.ks_rw,
                 PioOp.pinSet Pin.ks_rs, PioOp.portSetValue b,
                 PioOp.pinSet Pin.ks_en, PioOp.pinClear Pin.ks_en]
              else
                [PioOp.pinClear Pin.ks_cs1, PioOp.pinSet Pin.ks_cs2, PioOp.pinClear Pin.ks_rw,
                 PioOp.pinSet Pin.ks_rs, PioOp.portSetValue b,
                 PioOp.pinSet Pin.ks_en, PioOp.pinClear Pin.ks_en])) := by
  refine ⟨?_, ?_, ?_, ?_⟩
  · rw [write_cmd_cs1_eq]
    simp [cycles, cycle, Txn.cmd]
  · rw [write_cmd_cs2_eq]
    simp [cycles, cycle, Txn.cmd]
  · rw [write_cmd_eq]
    simp [cycles, cycle, Txn.cmd]
  · intro h
    rw [write_data_eq b s h]
    by_cases h2 : s.ks_X < 64 <;> simp [cycles, cycle, Txn.dat, h2]

theorem bus_write_cycle_witness :
    (⟨70, 3, []⟩ : KS).ks_X < 128 ∧
    (ks0108bh_write_data 0x41 ⟨70, 3, []⟩).log
        = (⟨70, 3, []⟩ : KS).log ++
            (if (⟨70, 3, []⟩ : KS).ks_X < 64 then
              [PioOp.pinSet Pin.ks_cs1, PioOp.pinClear Pin.ks_cs2, PioOp.pinClear Pin.ks_rw,
               PioOp.pinSet Pin.ks_rs, PioOp.portSetValue 0x41,
               PioOp.pinSet Pin.ks_en, PioOp.pinClear Pin.ks_en]
            else
              [PioOp.pinClear Pin.ks_cs1, PioOp.pinSet Pin.ks_cs2, PioOp.pinClear Pin.ks_rw,
               PioOp.pinSet Pin.ks_rs, PioOp.portSetValue 0x41,
               PioOp.pinSet Pin.ks_en, PioOp.pinClear Pin.ks_en])
    ∧ ks0108bh_write_cmd_cs1 0x41 ⟨128, 3, []⟩
        = { (⟨128, 3, []⟩ : KS) with log := (⟨128, 3, []⟩ : KS).log ++
            [PioOp.pinSet Pin.ks_cs1, PioOp.pinClear Pin.ks_cs2, PioOp.pinClear Pin.ks_rw,
             PioOp.pinClear Pin.ks_rs, PioOp.portSetValue 0x41,
             PioOp.pinSet Pin.ks_en, PioOp.pinClear Pin.ks_en] }
    ∧ ks0108bh_write_cmd_cs2 0x41 ⟨128, 3, []⟩
        = { (⟨128, 3, []⟩ : KS) with log := (⟨128, 3, []⟩ : KS).log ++
            [PioOp.pinClear Pin.ks_cs1, PioOp.pinSet Pin.ks_cs2, PioOp.pinClear Pin.ks_rw,
             PioOp.pinClear Pin.ks_rs, PioOp.portSetValue 0x41,
             PioOp.pinSet Pin.ks_en, PioOp.pinClear Pin.ks_en] }
    ∧ ks0108bh_write_cmd 0x41 ⟨128, 3, []⟩
        = { (⟨128, 3, []⟩ : KS) with log := (⟨128, 3, []⟩ : KS).log ++
            [PioOp.pinSet Pin.ks_cs1, PioOp.pinSet Pin.ks_cs2, PioOp.pinClear Pin.ks_rw,
             PioOp.pinClear Pin.ks_rs, PioOp.portSetValue 0x41,
             PioOp.pinSet Pin.ks_en, PioOp.pinClear Pin.ks_en] } :=
  ⟨by decide, (bus_write_cycle 0x41 ⟨70, 3, []⟩).2.2.2 (by decide),
    (bus_write_cycle 0x41 ⟨128, 3, []⟩).1, (bus_write_cycle 0x41 ⟨128, 3, []⟩).2.1,
    (bus_write_cycle 0x41 ⟨128, 3, []⟩).2.2.1⟩

/-! ## Text renderer: strings -/

/-- C20: rendering is a homomorphism over concatenation.  For each font,
every start state and all strings a and b (a without the terminating zero
inside), rendering a ++ b gives the same final state (cursor and whole pin
log, hence the same bus trace) as rendering a and then b from the resulting
state; rendering the empty string changes nothing. -/
theorem render_concat (F5 : Font57) (F8 : Font816) (a b : List Nat)
    (ha : ∀ c ∈ a, c ≠ 0) (s : KS) :
    ks0108bh_write_small F5 (a ++ b) s
        = ks0108bh_write_small F5 b (ks0108bh_write_small F5 a s)
    ∧ ks0108bh_write_big F8 (a ++ b) s
        = ks0108bh_write_big F8 b (ks0108bh_write_big F8 a s)
    ∧ ks0108bh_write_small F5 [] s = s
    ∧ ks0108bh_write_big F8 [] s = s := by
  refine ⟨?_, ?_, rfl, rfl⟩
  · induction a generalizing s with
    | nil => rfl
    | cons c a ih =>
      have hc : c ≠ 0 := ha c (List.mem_cons_self _ _)
      simp only [List.cons_append, ks0108bh_write_small, hc, if_false]
      exact ih (fun u hu => ha u (List.mem_cons_of_mem _ hu)) _
  · induction a generalizing s with
    | nil => rfl
    | cons c a ih =>
      have hc : c ≠ 0 := ha c (List.mem_cons_self _ _)
      simp only [List.cons_append, ks0108bh_write_big, hc, if_false]
      exact ih (fun u hu => ha u (List.mem_cons_of_mem _ hu)) _

theorem render_concat_witness :
    (∀ c ∈ [72, 105], c ≠ 0) ∧
    (ks0108bh_write_small ⟨5, fun c i => c + i, by decide⟩ ([72, 105] ++ [10, 33]) KS.start
        = ks0108bh_write_small ⟨5, fun c i => c + i, by decide⟩ [10, 33]
            (ks0108bh_write_small ⟨5, fun c i => c + i, by decide⟩ [72, 105] KS.start)
    ∧ ks0108bh_write_big ⟨8, 2, fun c j i => c + j + i, by decide, by decide⟩
          ([72, 105] ++ [10, 33]) KS.start
        = ks0108bh_write_big ⟨8, 2, fun c j i => c + j + i, by decide, by decide⟩ [10, 33]
            (ks0108bh_write_big ⟨8, 2, fun c j i => c + j + i, by decide, by decide⟩
              [72, 105] KS.start)
    ∧ ks0108bh_write_small ⟨5, fun c i => c + i, by decide⟩ [] KS.start = KS.start
    ∧ ks0108bh_write_big ⟨8, 2, fun c j i => c + j + i, by decide, by decide⟩ [] KS.start
        = KS.start) :=
  ⟨by decide,
    render_concat ⟨5, fun c i => c + i, by decide⟩
      ⟨8, 2, fun c j i => c + j + i, by decide, by decide⟩ [72, 105] [10, 33]
      (by decide) KS.start⟩

/-! ## Glyph blits: auxiliary facts -/

theorem size_t_natCast (n : Nat) : size_t (n : Int) = n % 4294967296 := by
  unfold size_t
  omega

theorem forLoop_write_bytes (n : Nat) (f : Nat → Nat) (s : KS) :
    forLoop n (fun i t => ks0108bh_write_data (f i) t) s
      = write_bytes ((List.range n).map f) s := by
  induction n with
  | zero => simp [forLoop, write_bytes]
  | succ n ih =>
    rw [forLoop_succ, ih, List.range_succ, List.map_append]
    simp [write_bytes, List.foldl_append]

theorem framed_write_bytes (bs : List Nat) : Framed (write_bytes bs) := by
  induction bs with
  | nil =>
    intro x y l
    simp [write_bytes]
  | cons b bs ih =>
    have h : write_bytes (b :: bs) = fun s => write_bytes bs (ks0108bh_write_data b s) := by
      funext s
      simp [write_bytes]
    rw [h]
    exact Framed.comp _ _ (framed_write_data b) ih

theorem framed_trace (k : KS → KS) (hk : Framed k) (t : KS) (L0 : Lines) :
    ∃ rest, busTrace L0 (k t).log = busTrace L0 t.log ++ rest := by
  obtain ⟨x, y, l⟩ := t
  refine ⟨busTrace (linesAfter L0 l) (k ⟨x, y, []⟩).log, ?_⟩
  rw [hk x y l]
  exact busTrace_append _ _ _

theorem gotoxy_eq_le (x y : Nat) (hx : x ≤ 128) (s : KS) :
    ks0108bh_gotoxy x y s =
      { ks_X := (x : Int), ks_Y := ((y % 8 : Nat) : Int),
        log := s.log ++ cycles (positionTxns x y) } := by
  by_cases h : x < 128
  · exact gotoxy_eq x y h s
  · have h128 : x = 128 := by omega
    subst h128
    rw [gotoxy_eq_right 128 y (by omega)]
    simp [positionTxns]

theorem write_small_char_blit (F : Font57) (c : Nat) (s : KS)
    (h10 : c ≠ 10) (h12 : c ≠ 12) (h13 : c ≠ 13) :
    write_small_char F c s
      = ks0108bh_write_data 0 (write_bytes (glyphRow57 F c)
          (if size_t s.ks_X ≥ size_t ((KS0108B_WIDTH : Int) - F.W + 1) then
            ks0108bh_gotoxy 0 (u8 (s.ks_Y + 1)) s
          else s)) := by
  simp only [write_small_char, h10, h12, h13, if_false, forLoop_write_bytes, glyphRow57]

theorem small_wrap_cond (F : Font57) (hW : F.W ≤ 129) (x : Nat) (hx : x ≤ 128) :
    size_t (x : Int) ≥ size_t ((KS0108B_WIDTH : Int) - F.W + 1) ↔ 128 - F.W < x ∨ F.W = 129 := by
  have h1 : ((KS0108B_WIDTH : Int) - F.W + 1) = ((129 - F.W : Nat) : Int) := by
    simp only [KS0108B_WIDTH]
    omega
  rw [h1, size_t_natCast, size_t_natCast]
  omega

theorem forLoop_zero (body : Nat → KS → KS) (s : KS) : forLoop 0 body s = s := rfl

theorem glyphRow816_length (F : Font816) (c j : Nat) : (glyphRow816 F c j).length = F.W := by
  simp [glyphRow816]

theorem glyphRow57_length (F : Font57) (c : Nat) : (glyphRow57 F c).length = F.W := by
  simp [glyphRow57]

theorem positionTxns_congr (x y z : Nat) (h : y % 8 = z % 8) :
    positionTxns x y = positionTxns x z := by
  rw [← positionTxns_mod x y, h, positionTxns_mod]

/-- One page-row of a big glyph: the W data writes, then the positioning
back to the start column on the next page. -/
theorem big_row_eq (F : Font816) (hW : F.W = 8) (c j x q : Nat) (hx : x ≤ 120) (s : KS)
    (hX : s.ks_X = (x : Int)) (hY : s.ks_Y = (q : Int)) (hq : q < 8) :
    (let u := forLoop F.W (fun i v => ks0108bh_write_data (u8 (F.glyph c j i)) v) s
     ks0108bh_gotoxy (u8 (u.ks_X - F.W)) (u8 (u.ks_Y + 1)) u)
      = { ks_X := (x : Int), ks_Y := (((q + 1) % 8 : Nat) : Int),
          log := s.log ++ cycles (dataTxns x (glyphRow816 F c j) ++ positionTxns x (q + 1)) } := by
  have hlen := glyphRow816_length F c j
  have hw := write_bytes_eq (glyphRow816 F c j) x s hX (by rw [hlen, hW]; omega)
  have hf : forLoop F.W (fun i v => ks0108bh_write_data (u8 (F.glyph c j i)) v) s
      = write_bytes (glyphRow816 F c j) s :=
    forLoop_write_bytes F.W (fun i => u8 (F.glyph c j i)) s
  simp only [hf]
  simp only [hw, hlen, hW, hY]
  have hu1 : u8 (((x + 8 : Nat) : Int) - ((8 : Nat) : Int)) = x := by
    unfold u8
    omega
  have hu2 : u8 ((q : Int) + 1) = q + 1 := by
    unfold u8
    omega
  rw [hu1, hu2, gotoxy_eq x _ (by omega)]
  simp [cycles_append, List.append_assoc]

/-- The default case of `ks0108bh_write_big` for a character that fits on
the line (no wrap before the glyph). -/
theorem write_big_char_eq (F : Font816) (hW : F.W = 8) (hH : F.H = 2) (c x y : Nat)
    (h10 : c ≠ 10) (h12 : c ≠ 12) (hx : x ≤ 120) (hy : y < 8) (s : KS)
    (hX : s.ks_X = (x : Int)) (hY : s.ks_Y = (y : Int)) :
    write_big_char F c s
      = { ks_X := ((x + 8 : Nat) : Int), ks_Y := (y : Int),
          log := s.log ++ cycles (dataTxns x (glyphRow816 F c 0) ++ positionTxns x (y + 1)
            ++ (dataTxns x (glyphRow816 F c 1) ++ positionTxns x (y + 2))
            ++ positionTxns (x + 8) y) } := by
  have hcond : ¬ size_t s.ks_X ≥ size_t ((KS0108B_WIDTH : Int) - F.W + 1) := by
    have h1 : ((KS0108B_WIDTH : Int) - F.W + 1) = ((121 : Nat) : Int) := by
      simp only [KS0108B_WIDTH, hW]
      omega
    rw [h1, hX, size_t_natCast, size_t_natCast]
    omega
  have hr0 := big_row_eq F hW c 0 x y hx s hX hY hy
  have hr1 := big_row_eq F hW c 1 x ((y + 1) % 8) hx
    { ks_X := (x : Int), ks_Y := (((y + 1) % 8 : Nat) : Int),
      log := s.log ++ cycles (dataTxns x (glyphRow816 F c 0) ++ positionTxns x (y + 1)) }
    rfl rfl (by omega)
  simp only at hr0 hr1
  simp only [write_big_char, h10, h12, if_false, hcond, hH]
  rw [forLoop_succ, forLoop_succ, forLoop_zero]
  rw [hr0, hr1]
  simp only [hW]
  have hm : ((y + 1) % 8 + 1) % 8 = (y + 2) % 8 := by omega
  have hu1 : u8 (((x : Nat) : Int) + ((8 : Nat) : Int)) = x + 8 := by
    unfold u8
    omega
  have hu2 : u8 (((((y + 1) % 8 + 1) % 8 : Nat) : Int) - ((2 : Nat) : Int)) % 8 = y := by
    unfold u8
    omega
  rw [hu1, gotoxy_eq_le (x + 8) _ (by omega), hu2]
  rw [positionTxns_congr (x + 8) _ y (by rw [hu2]; exact (Nat.mod_eq_of_lt hy).symm),
    positionTxns_congr x ((y + 1) % 8 + 1) (y + 2) (by omega)]
  simp [cycles_append, List.append_assoc]

/-- The default case of `ks0108bh_write_big` for a character that does not
fit on the line: the cursor first goes to the start of the line two pages
down, and the glyph is rendered from there. -/
theorem write_big_char_wrap (F : Font816) (hW : F.W = 8) (c x : Nat)
    (h10 : c ≠ 10) (h12 : c ≠ 12) (hlo : 121 ≤ x) (hhi : x ≤ 128) (s : KS)
    (hX : s.ks_X = (x : Int)) :
    write_big_char F c s = write_big_char F c (ks0108bh_gotoxy 0 (u8 (s.ks_Y + 2)) s) := by
  have h1 : ((KS0108B_WIDTH : Int) - F.W + 1) = ((121 : Nat) : Int) := by
    simp only [KS0108B_WIDTH, hW]
    omega
  have hcond : size_t s.ks_X ≥ size_t ((KS0108B_WIDTH : Int) - F.W + 1) := by
    rw [h1, hX, size_t_natCast, size_t_natCast]
    omega
  have hcond2 : ¬ size_t (ks0108bh_gotoxy 0 (u8 (s.ks_Y + 2)) s).ks_X
      ≥ size_t ((KS0108B_WIDTH : Int) - F.W + 1) := by
    rw [h1, gotoxy_eq 0 _ (by omega)]
    simp only
    rw [size_t_natCast, size_t_natCast]
    omega
  simp only [write_big_char, h10, h12, if_false, hcond, hcond2, if_true]

theorem Half.exec_cmd_ram (h : Half) (t : Txn) (ht : t.rs = false) : (h.exec t).ram = h.ram := by
  unfold Half.exec
  split
  · rfl
  · simp only [ht, Bool.false_eq_true, if_false]
    split
    · rfl
    · split <;> rfl

theorem run_cmds_ram (ts : List Txn) (hts : ∀ u ∈ ts, u.rs = false) (P : Panel) :
    (P.run ts).left.ram = P.left.ram ∧ (P.run ts).right.ram = P.right.ram := by
  induction ts generalizing P with
  | nil => exact ⟨rfl, rfl⟩
  | cons t ts ih =>
    have ht := hts t (List.mem_cons_self _ _)
    obtain ⟨h1, h2⟩ := ih (fun u hu => hts u (List.mem_cons_of_mem _ hu)) (P.exec t)
    have hrun : P.run (t :: ts) = (P.exec t).run ts := rfl
    rw [hrun, h1, h2]
    constructor
    · simp only [Panel.exec]
      split
      · exact Half.exec_cmd_ram _ _ ht
      · rfl
    · simp only [Panel.exec]
      split
      · exact Half.exec_cmd_ram _ _ ht
      · rfl

theorem run_positionTxns_any (P : Panel) (x y : Nat) (hx : x < 128) :
    (P.run (positionTxns x y)).Addressed x (y % 8)
    ∧ ∀ page c, (P.run (positionTxns x y)).cell page c = P.cell page c := by
  rw [← positionTxns_mod x y]
  obtain ⟨hA, hl, hr⟩ := run_positionTxns P x (y % 8) hx (Nat.mod_lt _ (by omega))
  exact ⟨hA, cell_of_ram_eq P _ hl hr⟩

theorem run_two_rows (P : Panel) (x y : Nat) (r0 r1 : List Nat) (h0 : r0.length = 8)
    (h1 : r1.length = 8) (hx : x ≤ 120) (hA : P.Addressed x y)
    (tail : List Txn) (htail : ∀ u ∈ tail, u.rs = false) (page col : Nat) :
    (P.run (dataTxns x r0 ++ positionTxns x (y + 1)
        ++ (dataTxns x r1 ++ positionTxns x (y + 2)) ++ tail)).cell page col
      = if page = y ∧ x ≤ col ∧ col < x + 8 then r0.getD (col - x) 0 :: P.cell page col
        else if page = (y + 1) % 8 ∧ x ≤ col ∧ col < x + 8 then
          r1.getD (col - x) 0 :: P.cell page col
        else P.cell page col := by
  simp only [Panel.run_append]
  obtain ⟨_, hc0⟩ := run_dataTxns r0 x y P hA (by omega)
  obtain ⟨hA1, hc1⟩ := run_positionTxns_any (P.run (dataTxns x r0)) x (y + 1) (by omega)
  obtain ⟨_, hc2⟩ := run_dataTxns r1 x ((y + 1) % 8) _ hA1 (by omega)
  obtain ⟨_, hc3⟩ := run_positionTxns_any
    (((P.run (dataTxns x r0)).run (positionTxns x (y + 1))).run (dataTxns x r1)) x (y + 2)
    (by omega)
  obtain ⟨hl, hr⟩ := run_cmds_ram tail htail
    ((((P.run (dataTxns x r0)).run (positionTxns x (y + 1))).run (dataTxns x r1)).run
      (positionTxns x (y + 2)))
  rw [cell_of_ram_eq _ _ hl hr, hc3, hc2, hc1, hc0, h0, h1]
  by_cases hp0 : page = y ∧ x ≤ col ∧ col < x + 8
  · have hp1 : ¬ (page = (y + 1) % 8 ∧ x ≤ col ∧ col < x + 8) := by omega
    simp only [if_pos hp0, if_neg hp1]
  · simp only [if_neg hp0]

theorem getD_map_range (n : Nat) (f : Nat → Nat) (i : Nat) (hi : i < n) :
    ((List.range n).map f).getD i 0 = f i := by
  rw [List.getD_eq_getElem _ 0 (by simpa using hi)]
  simp

theorem write_bytes_snoc (bs : List Nat) (d : Nat) (s : KS) :
    ks0108bh_write_data d (write_bytes bs s) = write_bytes (bs ++ [d]) s := by
  simp [write_bytes, List.foldl_append]

theorem dataTxns_left (X : Nat) (bs : List Nat) (h : X + bs.length ≤ 64) :
    dataTxns X bs = bs.map (Txn.dat Sel.left) := by
  induction bs generalizing X with
  | nil => simp [dataTxns]
  | cons b bs ih =>
    simp only [List.length_cons] at h
    have hX : X < 64 := by omega
    simp [dataTxns, hX, ih (X + 1) (by omega)]

theorem dataTxns_length (X : Nat) (bs : List Nat) : (dataTxns X bs).length = bs.length := by
  induction bs generalizing X with
  | nil => simp [dataTxns]
  | cons b bs ih => simp [dataTxns, ih]

theorem filter_data_dataTxns (X : Nat) (bs : List Nat) :
    (dataTxns X bs).filter (fun t => t.rs) = dataTxns X bs := by
  rw [List.filter_eq_self]
  intro u hu
  exact dataTxns_data X bs u hu

theorem small_no_wrap (F : Font57) (x : Nat) (s : KS) (hX : s.ks_X = (x : Int))
    (hfit : x + F.W ≤ 128) :
    ¬ size_t s.ks_X ≥ size_t ((KS0108B_WIDTH : Int) - F.W + 1) := by
  rw [hX, small_wrap_cond F (by omega) x (by omega)]
  omega

/-- A small-font glyph and its spacer when both fit on the line. -/
theorem write_small_char_fit (F : Font57) (c x : Nat) (h10 : c ≠ 10) (h12 : c ≠ 12)
    (h13 : c ≠ 13) (s : KS) (hX : s.ks_X = (x : Int)) (hfit : x + F.W + 1 ≤ 128) :
    write_small_char F c s
      = { ks_X := ((x + F.W + 1 : Nat) : Int), ks_Y := s.ks_Y,
          log := s.log ++ cycles (dataTxns x (glyphRow57 F c ++ [0])) } := by
  rw [write_small_char_blit F c s h10 h12 h13, if_neg (small_no_wrap F x s hX (by omega)),
    write_bytes_snoc, write_bytes_eq _ x s hX (by simp [glyphRow57_length]; omega)]
  simp [glyphRow57_length, Nat.add_assoc]

/-- A small-font glyph that ends at the last column: the spacer is written
through the wrap-around branch of `ks0108bh_write_data`. -/
theorem write_small_char_edge (F : Font57) (c x : Nat) (h10 : c ≠ 10) (h12 : c ≠ 12)
    (h13 : c ≠ 13) (s : KS) (hX : s.ks_X = (x : Int)) (hedge : x + F.W = 128) :
    write_small_char F c s
      = { ks_X := 1, ks_Y := s.ks_Y,
          log := s.log ++ cycles (dataTxns x (glyphRow57 F c))
            ++ (cycles [Txn.cmd Sel.left 0x40, Txn.cmd Sel.right 0x40]
              ++ [PioOp.pinClear Pin.ks_rw, PioOp.pinSet Pin.ks_rs, PioOp.portSetValue 0,
                  PioOp.pinSet Pin.ks_en, PioOp.pinClear Pin.ks_en]) } := by
  rw [write_small_char_blit F c s h10 h12 h13, if_neg (small_no_wrap F x s hX (by omega)),
    write_bytes_eq _ x s hX (by simp [glyphRow57_length]; omega),
    write_data_wrap_eq 0 _ (by simp [glyphRow57_length]; omega)]

theorem map_range_cons (n : Nat) (f : Nat → Nat) (hn : 1 ≤ n) :
    (List.range n).map f = f 0 :: (List.range (n - 1)).map (fun i => f (i + 1)) := by
  obtain ⟨m, rfl⟩ : ∃ m, n = m + 1 := ⟨n - 1, by omega⟩
  rw [List.range_succ_eq_map]
  simp [List.map_map, Function.comp_def]

/-- The first data write of a run of data writes followed by framed
operations, seen on the bus. -/
theorem first_write_trace (k : KS → KS) (hk : Framed k) (b : Nat) (t : KS) (L0 : Lines)
    (ht : t.ks_X < 128) :
    ∃ rest, busTrace L0 (k (ks0108bh_write_data b t)).log
      = busTrace L0 t.log ++ Txn.dat (if t.ks_X < 64 then Sel.left else Sel.right) b :: rest := by
  obtain ⟨rest, hrest⟩ := framed_trace k hk (ks0108bh_write_data b t) L0
  refine ⟨rest, ?_⟩
  rw [hrest, write_data_eq b t ht]
  simp only
  rw [busTrace_emit _ _ _ (by
    intro u hu
    simp only [List.mem_singleton] at hu
    subst hu
    by_cases h : t.ks_X < 64 <;> simp [Txn.dat, h])]
  simp [List.append_assoc]

theorem small_char_first (F : Font57) (hW1 : 1 ≤ F.W) (c : Nat) (h10 : c ≠ 10) (h12 : c ≠ 12)
    (h13 : c ≠ 13) (s : KS) :
    write_small_char F c s
      = (fun t => ks0108bh_write_data 0
            (write_bytes ((List.range (F.W - 1)).map (fun i => u8 (F.glyph c (i + 1)))) t))
          (ks0108bh_write_data (u8 (F.glyph c 0))
            (if size_t s.ks_X ≥ size_t ((KS0108B_WIDTH : Int) - F.W + 1) then
              ks0108bh_gotoxy 0 (u8 (s.ks_Y + 1)) s
            else s)) := by
  rw [write_small_char_blit F c s h10 h12 h13, glyphRow57, map_range_cons F.W _ hW1]
  simp [write_bytes]

theorem framed_small_rest (bs : List Nat) :
    Framed (fun t => ks0108bh_write_data 0 (write_bytes bs t)) :=
  Framed.comp _ _ (framed_write_bytes bs) (framed_write_data 0)

theorem run_position_then_write (P : Panel) (q b : Nat) :
    (P.run (positionTxns 0 q ++ [Txn.dat Sel.left b])).cell (q % 8) 0
      = b :: P.cell (q % 8) 0 := by
  rw [Panel.run_append]
  obtain ⟨hA, hcell⟩ := run_positionTxns_any P 0 q (by omega)
  have h := (exec_data (P.run (positionTxns 0 q)) 0 (q % 8) b hA (by omega)).2 (q % 8) 0
  simp only [Nat.lt_irrefl, Nat.zero_lt_succ, if_true] at h
  have hrun : (P.run (positionTxns 0 q)).run [Txn.dat Sel.left b]
      = (P.run (positionTxns 0 q)).exec (Txn.dat Sel.left b) := rfl
  rw [hrun]
  simpa [hcell] using h

theorem big_txns_valid (x y : Nat) (r0 r1 : List Nat) :
    ∀ u ∈ dataTxns x r0 ++ positionTxns x (y + 1)
      ++ (dataTxns x r1 ++ positionTxns x (y + 2)) ++ positionTxns (x + 8) y,
      u.rw = false ∧ u.sel ≠ Sel.none := by
  intro u hu
  simp only [List.mem_append] at hu
  rcases hu with ((hu | hu) | (hu | hu)) | hu
  · exact dataTxns_valid _ _ u hu
  · exact positionTxns_valid _ _ u hu
  · exact dataTxns_valid _ _ u hu
  · exact positionTxns_valid _ _ u hu
  · exact positionTxns_valid _ _ u hu

theorem big_txns_head (x y g : Nat) (tl r1 : List Nat) :
    ∃ rest, dataTxns x (g :: tl) ++ positionTxns x (y + 1)
        ++ (dataTxns x r1 ++ positionTxns x (y + 2)) ++ positionTxns (x + 8) y
      = Txn.dat (if x < 64 then Sel.left else Sel.right) g :: rest :=
  ⟨_, rfl⟩

/-- A small-font character that does not fit on the line: the cursor first
goes to the start of the next line, and the glyph is rendered from there. -/
theorem write_small_char_wrap (F : Font57) (hW : F.W ≤ 128) (c x : Nat) (h10 : c ≠ 10)
    (h12 : c ≠ 12) (h13 : c ≠ 13) (hlo : 128 - F.W < x) (hhi : x ≤ 128) (s : KS)
    (hX : s.ks_X = (x : Int)) :
    write_small_char F c s = write_small_char F c (ks0108bh_gotoxy 0 (u8 (s.ks_Y + 1)) s) := by
  have hcond : size_t s.ks_X ≥ size_t ((KS0108B_WIDTH : Int) - F.W + 1) := by
    rw [hX, small_wrap_cond F (by omega) x hhi]
    exact Or.inl hlo
  have hcond2 := small_no_wrap F 0 (ks0108bh_gotoxy 0 (u8 (s.ks_Y + 1)) s)
    (by rw [gotoxy_eq 0 _ (by omega)]) (by omega)
  rw [write_small_char_blit F c s h10 h12 h13, write_small_char_blit F c _ h10 h12 h13,
    if_pos hcond, if_neg hcond2]

/-! ## Text renderer: glyphs -/

/-- C13: big-font glyph blit.  For every printable character c, x <= 120
and y < 8, rendering c in the big font (8 columns, 2 page-rows) right after
`ks0108bh_gotoxy x y` emits the 8 bytes of page-row 0 at columns x .. x+7,
a positioning at (x, (y+1) mod 8), the 8 bytes of page-row 1, a positioning
at (x, (y+2) mod 8) and a final positioning at (x+8, y); on the display
byte i of page-row j is stored at logical column x + i of page
(y + j) mod 8, once, and no other cell is written; the cursor ends at
(x + 8, y). -/
theorem big_glyph_blit (F : Font816) (hW : F.W = 8) (hH : F.H = 2) (c x y : Nat)
    (hc0 : c ≠ 0) (h10 : c ≠ 10) (h12 : c ≠ 12) (hx : x ≤ 120) (hy : y < 8)
    (s : KS) (L0 : Lines) (P0 : Panel) :
    busTrace L0 (ks0108bh_write_big F [c] (ks0108bh_gotoxy x y s)).log
        = busTrace L0 (ks0108bh_gotoxy x y s).log
          ++ (dataTxns x (glyphRow816 F c 0) ++ positionTxns x ((y + 1) % 8)
            ++ (dataTxns x (glyphRow816 F c 1) ++ positionTxns x ((y + 2) % 8))
            ++ positionTxns (x + 8) y)
    ∧ (∀ j i, j < 2 → i < 8 →
        (panelAt P0 L0 (ks0108bh_write_big F [c] (ks0108bh_gotoxy x y s))).cell
            ((y + j) % 8) (x + i)
          = u8 (F.glyph c j i)
              :: (panelAt P0 L0 (ks0108bh_gotoxy x y s)).cell ((y + j) % 8) (x + i))
    ∧ (∀ page col, ¬ ((page = y ∨ page = (y + 1) % 8) ∧ x ≤ col ∧ col < x + 8) →
        (panelAt P0 L0 (ks0108bh_write_big F [c] (ks0108bh_gotoxy x y s))).cell page col
          = (panelAt P0 L0 (ks0108bh_gotoxy x y s)).cell page col)
    ∧ (ks0108bh_write_big F [c] (ks0108bh_gotoxy x y s)).ks_X = ((x + 8 : Nat) : Int)
    ∧ (ks0108bh_write_big F [c] (ks0108bh_gotoxy x y s)).ks_Y = (y : Int) := by
  have hg := gotoxy_eq x y (by omega) s
  have hy8 : y % 8 = y := Nat.mod_eq_of_lt hy
  have hb : ks0108bh_write_big F [c] (ks0108bh_gotoxy x y s)
      = write_big_char F c (ks0108bh_gotoxy x y s) := by
    simp [ks0108bh_write_big, hc0]
  have he := write_big_char_eq F hW hH c x y h10 h12 hx hy (ks0108bh_gotoxy x y s)
    (by rw [hg]) (by rw [hg, hy8])
  have hvalid : ∀ u ∈ dataTxns x (glyphRow816 F c 0) ++ positionTxns x (y + 1)
      ++ (dataTxns x (glyphRow816 F c 1) ++ positionTxns x (y + 2))
      ++ positionTxns (x + 8) y, u.rw = false ∧ u.sel ≠ Sel.none := by
    intro u hu
    simp only [List.mem_append] at hu
    rcases hu with ((hu | hu) | (hu | hu)) | hu
    · exact dataTxns_valid _ _ u hu
    · exact positionTxns_valid _ _ u hu
    · exact dataTxns_valid _ _ u hu
    · exact positionTxns_valid _ _ u hu
    · exact positionTxns_valid _ _ u hu
  have hpanel := panelAt_emit P0 L0 (ks0108bh_gotoxy x y s)
    (ks0108bh_write_big F [c] (ks0108bh_gotoxy x y s)) _ hvalid (by rw [hb, he])
  have hA : (panelAt P0 L0 (ks0108bh_gotoxy x y s)).Addressed x y := by
    rw [panelAt_emit P0 L0 s _ _ (positionTxns_valid x y) (by rw [hg])]
    exact (run_positionTxns _ x y (by omega) hy).1
  have hcell := run_two_rows (panelAt P0 L0 (ks0108bh_gotoxy x y s)) x y
    (glyphRow816 F c 0) (glyphRow816 F c 1)
    (by rw [glyphRow816_length, hW]) (by rw [glyphRow816_length, hW]) hx hA
    (positionTxns (x + 8) y) (positionTxns_cmd _ _)
  refine ⟨?_, ?_, ?_, by rw [hb, he], by rw [hb, he]⟩
  · rw [hb, he, positionTxns_mod, positionTxns_mod]
    exact busTrace_emit _ _ _ hvalid
  · intro j i hj hi
    rw [hpanel, hcell]
    have hidx : x + i - x = i := by omega
    have hin : x ≤ x + i ∧ x + i < x + 8 := by omega
    rcases (by omega : j = 0 ∨ j = 1) with rfl | rfl
    · have hp : (y + 0) % 8 = y := by omega
      rw [hp, if_pos ⟨rfl, hin⟩, hidx, glyphRow816,
        getD_map_range F.W _ i (by omega)]
    · have hp : ¬ ((y + 1) % 8 = y ∧ x ≤ x + i ∧ x + i < x + 8) := by omega
      rw [if_neg hp, if_pos ⟨rfl, hin⟩, hidx, glyphRow816,
        getD_map_range F.W _ i (by omega)]
  · intro page col hn
    rw [hpanel, hcell]
    have hp0 : ¬ (page = y ∧ x ≤ col ∧ col < x + 8) := by tauto
    have hp1 : ¬ (page = (y + 1) % 8 ∧ x ≤ col ∧ col < x + 8) := by tauto
    rw [if_neg hp0, if_neg hp1]

theorem big_glyph_blit_witness :
    sampleFont8.W = 8 ∧ sampleFont8.H = 2 ∧ 65 ≠ 0 ∧ 65 ≠ 10 ∧ 65 ≠ 12 ∧ 60 ≤ 120 ∧ 7 < 8 ∧
    (busTrace Lines.low (ks0108bh_write_big sampleFont8 [65] (ks0108bh_gotoxy 60 7 KS.start)).log
        = busTrace Lines.low (ks0108bh_gotoxy 60 7 KS.start).log
          ++ (dataTxns 60 (glyphRow816 sampleFont8 65 0) ++ positionTxns 60 ((7 + 1) % 8)
            ++ (dataTxns 60 (glyphRow816 sampleFont8 65 1) ++ positionTxns 60 ((7 + 2) % 8))
            ++ positionTxns (60 + 8) 7)
    ∧ (∀ j i, j < 2 → i < 8 →
        (panelAt Panel.blank Lines.low
            (ks0108bh_write_big sampleFont8 [65] (ks0108bh_gotoxy 60 7 KS.start))).cell
            ((7 + j) % 8) (60 + i)
          = u8 (sampleFont8.glyph 65 j i)
              :: (panelAt Panel.blank Lines.low (ks0108bh_gotoxy 60 7 KS.start)).cell
                  ((7 + j) % 8) (60 + i))
    ∧ (∀ page col, ¬ ((page = 7 ∨ page = (7 + 1) % 8) ∧ 60 ≤ col ∧ col < 60 + 8) →
        (panelAt Panel.blank Lines.low
            (ks0108bh_write_big sampleFont8 [65] (ks0108bh_gotoxy 60 7 KS.start))).cell page col
          = (panelAt Panel.blank Lines.low (ks0108bh_gotoxy 60 7 KS.start)).cell page col)
    ∧ (ks0108bh_write_big sampleFont8 [65] (ks0108bh_gotoxy 60 7 KS.start)).ks_X
        = ((60 + 8 : Nat) : Int)
    ∧ (ks0108bh_write_big sampleFont8 [65] (ks0108bh_gotoxy 60 7 KS.start)).ks_Y
        = ((7 : Nat) : Int)) :=
  ⟨rfl, rfl, by decide, by decide, by decide, by decide, by decide,
    big_glyph_blit sampleFont8 rfl rfl 65 60 7 (by decide) (by decide) (by decide)
      (by decide) (by decide) KS.start Lines.low Panel.blank⟩

/-- C12 (as the code has it): small-font glyph advance.  For every printable
character c and cursor (x, y) with x + W + 1 <= 128 and y < 8, rendering c
in the small font emits exactly W + 1 data writes, the W column bytes of the
glyph in order and then one byte 0, at consecutive columns from x, and
leaves the cursor at (x + W + 1, y).  For x = 128 - W the W glyph bytes are
written at columns x .. 127 and the spacer goes through the wrap-around
branch of `ks0108bh_write_data`: the column-set commands of
`ks0108bh_gotox 0` precede the data write of 0, and the cursor ends at
(1, y). -/
theorem small_glyph_advance (F : Font57) (c x y : Nat) (hc0 : c ≠ 0) (h10 : c ≠ 10)
    (h12 : c ≠ 12) (h13 : c ≠ 13) (hy : y < 8) (s : KS) (hX : s.ks_X = (x : Int))
    (hY : s.ks_Y = (y : Int)) (L0 : Lines) :
    (x + F.W + 1 ≤ 128 →
      busTrace L0 (ks0108bh_write_small F [c] s).log
          = busTrace L0 s.log ++ dataTxns x (glyphRow57 F c ++ [0])
      ∧ (dataTxns x (glyphRow57 F c ++ [0])).length = F.W + 1
      ∧ (busTrace L0 (ks0108bh_write_small F [c] s).log).filter (fun t => t.rs)
          = (busTrace L0 s.log).filter (fun t => t.rs) ++ dataTxns x (glyphRow57 F c ++ [0])
      ∧ (ks0108bh_write_small F [c] s).ks_X = ((x + F.W + 1 : Nat) : Int)
      ∧ (ks0108bh_write_small F [c] s).ks_Y = (y : Int))
    ∧ (x + F.W = 128 →
      (∃ sel, busTrace L0 (ks0108bh_write_small F [c] s).log
          = busTrace L0 s.log ++ dataTxns x (glyphRow57 F c)
            ++ [Txn.cmd Sel.left 0x40, Txn.cmd Sel.right 0x40, Txn.dat sel 0])
      ∧ (ks0108bh_write_small F [c] s).ks_X = 1
      ∧ (ks0108bh_write_small F [c] s).ks_Y = (y : Int)) := by
  have _ := hy
  have hs : ks0108bh_write_small F [c] s = write_small_char F c s := by
    simp [ks0108bh_write_small, hc0]
  constructor
  · intro hfit
    have he := write_small_char_fit F c x h10 h12 h13 s hX hfit
    have hb : busTrace L0 (ks0108bh_write_small F [c] s).log
        = busTrace L0 s.log ++ dataTxns x (glyphRow57 F c ++ [0]) := by
      rw [hs, he]
      exact busTrace_emit _ _ _ (dataTxns_valid _ _)
    refine ⟨hb, ?_, ?_, by rw [hs, he], by rw [hs, he, hY]⟩
    · rw [dataTxns_length, List.length_append, glyphRow57_length]
      rfl
    · rw [hb, List.filter_append, filter_data_dataTxns]
  · intro hedge
    have he := write_small_char_edge F c x h10 h12 h13 s hX hedge
    refine ⟨⟨Sel.right, ?_⟩, by rw [hs, he], by rw [hs, he, hY]⟩
    rw [hs, he]
    simp only
    rw [busTrace_wrap_write, busTrace_emit _ _ _ (dataTxns_valid _ _)]

theorem small_glyph_advance_witness :
    65 ≠ 0 ∧ 65 ≠ 10 ∧ 65 ≠ 12 ∧ 65 ≠ 13 ∧ 2 < 8
    ∧ (⟨30, 2, []⟩ : KS).ks_X = ((30 : Nat) : Int) ∧ (⟨30, 2, []⟩ : KS).ks_Y = ((2 : Nat) : Int) ∧
    ((30 + sampleFont5.W + 1 ≤ 128 →
      busTrace Lines.low (ks0108bh_write_small sampleFont5 [65] ⟨30, 2, []⟩).log
          = busTrace Lines.low (⟨30, 2, []⟩ : KS).log
            ++ dataTxns 30 (glyphRow57 sampleFont5 65 ++ [0])
      ∧ (dataTxns 30 (glyphRow57 sampleFont5 65 ++ [0])).length = sampleFont5.W + 1
      ∧ (busTrace Lines.low (ks0108bh_write_small sampleFont5 [65] ⟨30, 2, []⟩).log).filter
            (fun t => t.rs)
          = (busTrace Lines.low (⟨30, 2, []⟩ : KS).log).filter (fun t => t.rs)
            ++ dataTxns 30 (glyphRow57 sampleFont5 65 ++ [0])
      ∧ (ks0108bh_write_small sampleFont5 [65] ⟨30, 2, []⟩).ks_X
          = ((30 + sampleFont5.W + 1 : Nat) : Int)
      ∧ (ks0108bh_write_small sampleFont5 [65] ⟨30, 2, []⟩).ks_Y = ((2 : Nat) : Int))
    ∧ (30 + sampleFont5.W = 128 →
      (∃ sel, busTrace Lines.low (ks0108bh_write_small sampleFont5 [65] ⟨30, 2, []⟩).log
          = busTrace Lines.low (⟨30, 2, []⟩ : KS).log ++ dataTxns 30 (glyphRow57 sampleFont5 65)
            ++ [Txn.cmd Sel.left 0x40, Txn.cmd Sel.right 0x40, Txn.dat sel 0])
      ∧ (ks0108bh_write_small sampleFont5 [65] ⟨30, 2, []⟩).ks_X = 1
      ∧ (ks0108bh_write_small sampleFont5 [65] ⟨30, 2, []⟩).ks_Y = ((2 : Nat) : Int))) :=
  ⟨by decide, by decide, by decide, by decide, by decide, rfl, rfl,
    small_glyph_advance sampleFont5 65 30 2 (by decide) (by decide) (by decide) (by decide)
      (by decide) ⟨30, 2, []⟩ rfl rfl Lines.low⟩

/-- C12 (counterexample): with a small font of width 5 and the cursor at
x = 123 = 128 - 5, or of width 6 and the cursor at x = 122 = 128 - 6,
rendering the character 65 leaves `ks_X = 1`, not x + W + 1 = 129. -/
theorem small_glyph_advance_counterexample :
    (123 ≤ 128 - sampleFont5.W
      ∧ (ks0108bh_write_small sampleFont5 [65] ⟨123, 0, []⟩).ks_X = 1
      ∧ (ks0108bh_write_small sampleFont5 [65] ⟨123, 0, []⟩).ks_X
          ≠ ((123 + sampleFont5.W + 1 : Nat) : Int))
    ∧ (122 ≤ 128 - sampleFont6.W
      ∧ (ks0108bh_write_small sampleFont6 [65] ⟨122, 0, []⟩).ks_X = 1
      ∧ (ks0108bh_write_small sampleFont6 [65] ⟨122, 0, []⟩).ks_X
          ≠ ((122 + sampleFont6.W + 1 : Nat) : Int)) := by
  have h5 : ks0108bh_write_small sampleFont5 [65] ⟨123, 0, []⟩
      = write_small_char sampleFont5 65 ⟨123, 0, []⟩ := by
    simp [ks0108bh_write_small]
  have h6 : ks0108bh_write_small sampleFont6 [65] ⟨122, 0, []⟩
      = write_small_char sampleFont6 65 ⟨122, 0, []⟩ := by
    simp [ks0108bh_write_small]
  have e5 := write_small_char_edge sampleFont5 65 123 (by decide) (by decide) (by decide)
    ⟨123, 0, []⟩ rfl rfl
  have e6 := write_small_char_edge sampleFont6 65 122 (by decide) (by decide) (by decide)
    ⟨122, 0, []⟩ rfl rfl
  rw [h5, h6, e5, e6]
  refine ⟨⟨by decide, rfl, by decide⟩, ⟨by decide, rfl, by decide⟩⟩

/-- C14: writing "A\n" (characters 65, 10) in the small font from cursor
(0, 0), with the glyph width 6 of the spec: the character 65 emits the 6
glyph bytes and then 1 spacer byte 0, all to the left half at columns
0 .. 6 (7 data writes, no other data write), leaving the cursor at (7, 0);
the line feed then emits one positioning and the cursor ends at (0, 1). -/
theorem small_A_newline (F : Font57) (hW : F.W = FONT_WIDTH_font_5_7) (s : KS)
    (hX : s.ks_X = 0) (hY : s.ks_Y = 0) (L0 : Lines) :
    busTrace L0 (ks0108bh_write_small F [65, 10] s).log
        = busTrace L0 s.log
          ++ (List.range 6).map (fun i => Txn.dat Sel.left (u8 (F.glyph 65 i)))
          ++ [Txn.dat Sel.left 0]
          ++ [Txn.cmd Sel.left 0x40, Txn.cmd Sel.right 0x40, Txn.cmd Sel.both (0xB8 ||| 1)]
    ∧ ((busTrace L0 (ks0108bh_write_small F [65, 10] s).log).filter (fun t => t.rs)).length
        = ((busTrace L0 s.log).filter (fun t => t.rs)).length + 7
    ∧ (ks0108bh_write_small F [65] s).ks_X = 7
    ∧ (ks0108bh_write_small F [65] s).ks_Y = 0
    ∧ (ks0108bh_write_small F [65, 10] s).ks_X = 0
    ∧ (ks0108bh_write_small F [65, 10] s).ks_Y = 1 := by
  have hW6 : F.W = 6 := hW
  have hc := write_small_char_fit F 65 0 (by decide) (by decide) (by decide) s
    (by simpa using hX) (by omega)
  have hrow : dataTxns 0 (glyphRow57 F 65 ++ [0])
      = (List.range 6).map (fun i => Txn.dat Sel.left (u8 (F.glyph 65 i)))
        ++ [Txn.dat Sel.left 0] := by
    rw [dataTxns_left 0 _ (by simp [glyphRow57_length, hW6])]
    simp [glyphRow57, hW6]
  have h1 : ks0108bh_write_small F [65] s = write_small_char F 65 s := by
    simp [ks0108bh_write_small]
  have h2 : ks0108bh_write_small F [65, 10] s
      = ks0108bh_gotoxy 0 (u8 ((write_small_char F 65 s).ks_Y + 1)) (write_small_char F 65 s) := by
    simp [ks0108bh_write_small, write_small_char]
  have hu : u8 ((0 : Int) + 1) = 1 := by decide
  have hb : busTrace L0 (ks0108bh_write_small F [65, 10] s).log
      = busTrace L0 s.log
        ++ (List.range 6).map (fun i => Txn.dat Sel.left (u8 (F.glyph 65 i)))
        ++ [Txn.dat Sel.left 0]
        ++ [Txn.cmd Sel.left 0x40, Txn.cmd Sel.right 0x40, Txn.cmd Sel.both (0xB8 ||| 1)] := by
    rw [h2, hc, hY]
    simp only [hu]
    rw [gotoxy_eq_left 0 1 (by omega)]
    simp only
    rw [busTrace_emit _ _ _ (by simp [Txn.cmd]), busTrace_emit _ _ _ (dataTxns_valid _ _), hrow]
    simp [List.append_assoc]
  refine ⟨hb, ?_, ?_, ?_, ?_, ?_⟩
  · rw [hb]
    simp [List.filter_append, Txn.dat, Txn.cmd, List.filter_map, Function.comp_def]
  · rw [h1, hc, hW6]
    rfl
  · rw [h1, hc, hY]
  · rw [h2, hc, hY]
    simp only [hu]
    rw [gotoxy_eq_left 0 1 (by omega)]
    rfl
  · rw [h2, hc, hY]
    simp only [hu]
    rw [gotoxy_eq_left 0 1 (by omega)]
    rfl

theorem small_A_newline_witness :
    sampleFont6.W = FONT_WIDTH_font_5_7 ∧ KS.start.ks_X = 0 ∧ KS.start.ks_Y = 0 ∧
    (busTrace Lines.low (ks0108bh_write_small sampleFont6 [65, 10] KS.start).log
        = busTrace Lines.low KS.start.log
          ++ (List.range 6).map (fun i => Txn.dat Sel.left (u8 (sampleFont6.glyph 65 i)))
          ++ [Txn.dat Sel.left 0]
          ++ [Txn.cmd Sel.left 0x40, Txn.cmd Sel.right 0x40, Txn.cmd Sel.both (0xB8 ||| 1)]
    ∧ ((busTrace Lines.low (ks0108bh_write_small sampleFont6 [65, 10] KS.start).log).filter
          (fun t => t.rs)).length
        = ((busTrace Lines.low KS.start.log).filter (fun t => t.rs)).length + 7
    ∧ (ks0108bh_write_small sampleFont6 [65] KS.start).ks_X = 7
    ∧ (ks0108bh_write_small sampleFont6 [65] KS.start).ks_Y = 0
    ∧ (ks0108bh_write_small sampleFont6 [65, 10] KS.start).ks_X = 0
    ∧ (ks0108bh_write_small sampleFont6 [65, 10] KS.start).ks_Y = 1) :=
  ⟨rfl, rfl, rfl, small_A_newline sampleFont6 rfl KS.start rfl rfl Lines.low⟩

/-- C11: wrap rule for printable characters.  With the small font of glyph
width W (1 <= W <= 128, line height 1 page) and the big font (W = 8, line
height 2 pages), for every cursor (x, y) with x <= 128 and y < 8: when
x > 128 - W the rendering of one printable character begins with the
positioning at (0, (y + P) mod 8) and the first glyph byte is the next
transaction, a data write to the left half that lands at column 0 of page
(y + P) mod 8; when x <= 128 - W the first transaction emitted is the data
write of the first glyph byte, in the half of column x.  For the big font
the wrap happens for x in 121..128 and not for x <= 120. -/
theorem printable_wrap_rule (F5 : Font57) (F8 : Font816) (hW1 : 1 ≤ F5.W) (hW : F5.W ≤ 128)
    (h8 : F8.W = 8) (h2 : F8.H = 2) (c x y : Nat) (hc0 : c ≠ 0) (h10 : c ≠ 10)
    (h12 : c ≠ 12) (h13 : c ≠ 13) (hx : x ≤ 128) (hy : y < 8) (s : KS)
    (hX : s.ks_X = (x : Int)) (hY : s.ks_Y = (y : Int)) (L0 : Lines) :
    (128 - F5.W < x →
      ks0108bh_write_small F5 [c] s = ks0108bh_write_small F5 [c] (ks0108bh_gotoxy 0 (y + 1) s)
      ∧ (ks0108bh_gotoxy 0 (y + 1) s).ks_X = 0
      ∧ (ks0108bh_gotoxy 0 (y + 1) s).ks_Y = (((y + 1) % 8 : Nat) : Int)
      ∧ ∃ rest, busTrace L0 (ks0108bh_write_small F5 [c] s).log
        = busTrace L0 s.log ++ positionTxns 0 ((y + 1) % 8)
          ++ Txn.dat Sel.left (u8 (F5.glyph c 0)) :: rest)
    ∧ (x ≤ 128 - F5.W →
      ∃ rest, busTrace L0 (ks0108bh_write_small F5 [c] s).log
        = busTrace L0 s.log
          ++ Txn.dat (if x < 64 then Sel.left else Sel.right) (u8 (F5.glyph c 0)) :: rest)
    ∧ (120 < x →
      ks0108bh_write_big F8 [c] s = ks0108bh_write_big F8 [c] (ks0108bh_gotoxy 0 (y + 2) s)
      ∧ (ks0108bh_gotoxy 0 (y + 2) s).ks_X = 0
      ∧ (ks0108bh_gotoxy 0 (y + 2) s).ks_Y = (((y + 2) % 8 : Nat) : Int)
      ∧ ∃ rest, busTrace L0 (ks0108bh_write_big F8 [c] s).log
        = busTrace L0 s.log ++ positionTxns 0 ((y + 2) % 8)
          ++ Txn.dat Sel.left (u8 (F8.glyph c 0 0)) :: rest)
    ∧ (x ≤ 120 →
      ∃ rest, busTrace L0 (ks0108bh_write_big F8 [c] s).log
        = busTrace L0 s.log
          ++ Txn.dat (if x < 64 then Sel.left else Sel.right) (u8 (F8.glyph c 0 0)) :: rest)
    ∧ (∀ (P : Panel) (q b : Nat),
        (P.run (positionTxns 0 (q % 8) ++ [Txn.dat Sel.left b])).cell (q % 8) 0
          = b :: P.cell (q % 8) 0) := by
  have hs : ks0108bh_write_small F5 [c] s = write_small_char F5 c s := by
    simp [ks0108bh_write_small, hc0]
  have hb : ks0108bh_write_big F8 [c] s = write_big_char F8 c s := by
    simp [ks0108bh_write_big, hc0]
  have hcond := small_wrap_cond F5 (by omega) x hx
  have h64 : (s.ks_X < 64) ↔ (x < 64) := by omega
  have hrow0 : glyphRow816 F8 c 0
      = u8 (F8.glyph c 0 0) :: (List.range (F8.W - 1)).map (fun i => u8 (F8.glyph c 0 (i + 1))) :=
    map_range_cons F8.W _ (by omega)
  refine ⟨?_, ?_, ?_, ?_, ?_⟩
  · intro hwrap
    have hc : size_t s.ks_X ≥ size_t ((KS0108B_WIDTH : Int) - F5.W + 1) := by
      rw [hX, hcond]
      exact Or.inl hwrap
    have hu : u8 (s.ks_Y + 1) = y + 1 := by
      rw [hY]
      unfold u8
      omega
    have hmove : ks0108bh_write_small F5 [c] s
        = ks0108bh_write_small F5 [c] (ks0108bh_gotoxy 0 (y + 1) s) := by
      have := write_small_char_wrap F5 hW c x h10 h12 h13 hwrap hx s hX
      rw [hu] at this
      simpa [ks0108bh_write_small, hc0] using this
    refine ⟨hmove, by rw [gotoxy_eq 0 _ (by omega)]; rfl, by rw [gotoxy_eq 0 _ (by omega)], ?_⟩
    rw [hs, small_char_first F5 hW1 c h10 h12 h13 s, if_pos hc, hu]
    obtain ⟨rest, hrest⟩ := first_write_trace _ (framed_small_rest _) (u8 (F5.glyph c 0))
      (ks0108bh_gotoxy 0 (y + 1) s) L0 (by rw [gotoxy_eq 0 _ (by omega)]; simp)
    refine ⟨rest, ?_⟩
    rw [hrest, gotoxy_eq 0 _ (by omega)]
    simp only
    rw [busTrace_emit _ _ _ (positionTxns_valid _ _), positionTxns_mod]
    simp
  · intro hfit
    have hc : ¬ size_t s.ks_X ≥ size_t ((KS0108B_WIDTH : Int) - F5.W + 1) := by
      rw [hX, hcond]
      omega
    rw [hs, small_char_first F5 hW1 c h10 h12 h13 s, if_neg hc]
    obtain ⟨rest, hrest⟩ := first_write_trace _ (framed_small_rest _) (u8 (F5.glyph c 0))
      s L0 (by omega)
    refine ⟨rest, ?_⟩
    rw [hrest]
    simp only [h64]
  · intro hwrap
    have hu : u8 (s.ks_Y + 2) = y + 2 := by
      rw [hY]
      unfold u8
      omega
    have hg := gotoxy_eq 0 (y + 2) (by omega) s
    have he := write_big_char_eq F8 h8 h2 c 0 ((y + 2) % 8) h10 h12 (by omega)
      (Nat.mod_lt _ (by omega)) (ks0108bh_gotoxy 0 (y + 2) s) (by rw [hg]) (by rw [hg])
    obtain ⟨rest, hrest⟩ := big_txns_head 0 ((y + 2) % 8) (u8 (F8.glyph c 0 0))
      ((List.range (F8.W - 1)).map (fun i => u8 (F8.glyph c 0 (i + 1)))) (glyphRow816 F8 c 1)
    have hmove : ks0108bh_write_big F8 [c] s
        = ks0108bh_write_big F8 [c] (ks0108bh_gotoxy 0 (y + 2) s) := by
      have := write_big_char_wrap F8 h8 c x h10 h12 (by omega) hx s hX
      rw [hu] at this
      simpa [ks0108bh_write_big, hc0] using this
    refine ⟨hmove, by rw [hg]; rfl, by rw [hg], rest, ?_⟩
    rw [hb, write_big_char_wrap F8 h8 c x h10 h12 (by omega) hx s hX, hu, he, hrow0,
      busTrace_emit _ _ _ (big_txns_valid _ _ _ _), hrest, hg]
    simp only
    rw [busTrace_emit _ _ _ (positionTxns_valid _ _), positionTxns_mod]
    simp
  · intro hfit
    have he := write_big_char_eq F8 h8 h2 c x y h10 h12 hfit hy s hX hY
    obtain ⟨rest, hrest⟩ := big_txns_head x y (u8 (F8.glyph c 0 0))
      ((List.range (F8.W - 1)).map (fun i => u8 (F8.glyph c 0 (i + 1)))) (glyphRow816 F8 c 1)
    refine ⟨rest, ?_⟩
    rw [hb, he, hrow0, busTrace_emit _ _ _ (big_txns_valid _ _ _ _), hrest]
  · intro P q b
    have h := run_position_then_write P (q % 8) b
    rwa [Nat.mod_mod] at h

theorem printable_wrap_rule_witness :
    1 ≤ sampleFont5.W ∧ sampleFont5.W ≤ 128 ∧ sampleFont8.W = 8 ∧ sampleFont8.H = 2
    ∧ 65 ≠ 0 ∧ 65 ≠ 10 ∧ 65 ≠ 12 ∧ 65 ≠ 13 ∧ 124 ≤ 128 ∧ 6 < 8
    ∧ (⟨124, 6, []⟩ : KS).ks_X = ((124 : Nat) : Int)
    ∧ (⟨124, 6, []⟩ : KS).ks_Y = ((6 : Nat) : Int) ∧
    ((128 - sampleFont5.W < 124 →
      ks0108bh_write_small sampleFont5 [65] ⟨124, 6, []⟩
        = ks0108bh_write_small sampleFont5 [65] (ks0108bh_gotoxy 0 (6 + 1) ⟨124, 6, []⟩)
      ∧ (ks0108bh_gotoxy 0 (6 + 1) ⟨124, 6, []⟩).ks_X = 0
      ∧ (ks0108bh_gotoxy 0 (6 + 1) ⟨124, 6, []⟩).ks_Y = (((6 + 1) % 8 : Nat) : Int)
      ∧ ∃ rest, busTrace Lines.low (ks0108bh_write_small sampleFont5 [65] ⟨124, 6, []⟩).log
        = busTrace Lines.low (⟨124, 6, []⟩ : KS).log ++ positionTxns 0 ((6 + 1) % 8)
          ++ Txn.dat Sel.left (u8 (sampleFont5.glyph 65 0)) :: rest)
    ∧ (124 ≤ 128 - sampleFont5.W →
      ∃ rest, busTrace Lines.low (ks0108bh_write_small sampleFont5 [65] ⟨124, 6, []⟩).log
        = busTrace Lines.low (⟨124, 6, []⟩ : KS).log
          ++ Txn.dat (if 124 < 64 then Sel.left else Sel.right)
              (u8 (sampleFont5.glyph 65 0)) :: rest)
    ∧ (120 < 124 →
      ks0108bh_write_big sampleFont8 [65] ⟨124, 6, []⟩
        = ks0108bh_write_big sampleFont8 [65] (ks0108bh_gotoxy 0 (6 + 2) ⟨124, 6, []⟩)
      ∧ (ks0108bh_gotoxy 0 (6 + 2) ⟨124, 6, []⟩).ks_X = 0
      ∧ (ks0108bh_gotoxy 0 (6 + 2) ⟨124, 6, []⟩).ks_Y = (((6 + 2) % 8 : Nat) : Int)
      ∧ ∃ rest, busTrace Lines.low (ks0108bh_write_big sampleFont8 [65] ⟨124, 6, []⟩).log
        = busTrace Lines.low (⟨124, 6, []⟩ : KS).log ++ positionTxns 0 ((6 + 2) % 8)
          ++ Txn.dat Sel.left (u8 (sampleFont8.glyph 65 0 0)) :: rest)
    ∧ (124 ≤ 120 →
      ∃ rest, busTrace Lines.low (ks0108bh_write_big sampleFont8 [65] ⟨124, 6, []⟩).log
        = busTrace Lines.low (⟨124, 6, []⟩ : KS).log
          ++ Txn.dat (if 124 < 64 then Sel.left else Sel.right)
              (u8 (sampleFont8.glyph 65 0 0)) :: rest)
    ∧ (∀ (P : Panel) (q b : Nat),
        (P.run (positionTxns 0 (q % 8) ++ [Txn.dat Sel.left b])).cell (q % 8) 0
          = b :: P.cell (q % 8) 0)) :=
  ⟨by decide, by decide, rfl, rfl, by decide, by decide, by decide, by decide, by decide,
    by decide, rfl, rfl,
    printable_wrap_rule sampleFont5 sampleFont8 (by decide) (by decide) rfl rfl 65 124 6
      (by decide) (by decide) (by decide) (by decide) (by decide) (by decide)
      ⟨124, 6, []⟩ rfl rfl Lines.low⟩

/-! ## Cursor range -/

theorem inRange_gotox (x : Nat) (hx : x ≤ 128) (s : KS) (h : CursorInRange s) :
    CursorInRange (ks0108bh_gotox x s) := by
  obtain ⟨_, _, h3, h4⟩ := h
  by_cases hlt : x < 64
  · rw [gotox_eq_left x hlt]
    exact ⟨by simp, by simp; omega, h3, h4⟩
  · rw [gotox_eq_right x (by omega)]
    exact ⟨by simp, by simp; omega, h3, h4⟩

theorem inRange_gotoy (y : Nat) (s : KS) (h : CursorInRange s) :
    CursorInRange (ks0108bh_gotoy y s) := by
  obtain ⟨h1, h2, _, _⟩ := h
  rw [gotoy_eq]
  refine ⟨h1, h2, ?_, ?_⟩
  · simp only
    omega
  · simp only
    omega

theorem inRange_gotoxy (x y : Nat) (hx : x ≤ 128) (s : KS) (h : CursorInRange s) :
    CursorInRange (ks0108bh_gotoxy x y s) :=
  inRange_gotoy y _ (inRange_gotox x hx s h)

theorem inRange_write_data (d : Nat) (s : KS) (h : CursorInRange s) :
    CursorInRange (ks0108bh_write_data d s) := by
  obtain ⟨h1, h2, h3, h4⟩ := h
  by_cases hlt : s.ks_X < 128
  · rw [write_data_eq d s hlt]
    exact ⟨by simp only; omega, by simp only; omega, h3, h4⟩
  · rw [write_data_wrap_eq d s (by omega)]
    exact ⟨by simp, by simp, h3, h4⟩

theorem inRange_write_bytes (bs : List Nat) (s : KS) (h : CursorInRange s) :
    CursorInRange (write_bytes bs s) := by
  induction bs generalizing s with
  | nil => exact h
  | cons b bs ih => exact ih _ (inRange_write_data b s h)

theorem inRange_form_feed (s : KS) : CursorInRange (ks0108bh_gotoxy 0 0 (ks0108bh_clear s)) := by
  rw [form_feed_eq]
  exact ⟨by simp, by simp, by simp, by simp⟩

theorem inRange_small_char (F : Font57) (c : Nat) (s : KS) (h : CursorInRange s) :
    CursorInRange (write_small_char F c s) := by
  by_cases h10 : c = 10
  · simp only [write_small_char, h10, if_true]
    exact inRange_gotoxy 0 _ (by omega) s h
  by_cases h12 : c = 12
  · subst h12
    exact inRange_form_feed s
  by_cases h13 : c = 13
  · subst h13
    exact inRange_gotox 0 (by omega) s h
  rw [write_small_char_blit F c s h10 h12 h13]
  refine inRange_write_data 0 _ (inRange_write_bytes _ _ ?_)
  split
  · exact inRange_gotoxy 0 _ (by omega) s h
  · exact h

theorem inRange_big_char (F : Font816) (hW : F.W = 8) (hH : F.H = 2) (c : Nat) (s : KS)
    (h : CursorInRange s) : CursorInRange (write_big_char F c s) := by
  by_cases h10 : c = 10
  · simp only [write_big_char, h10, if_true]
    exact inRange_gotoxy 0 _ (by omega) s h
  by_cases h12 : c = 12
  · subst h12
    exact inRange_form_feed s
  obtain ⟨h1, h2, h3, h4⟩ := h
  obtain ⟨x, hX⟩ := Int.eq_ofNat_of_zero_le h1
  obtain ⟨y, hY⟩ := Int.eq_ofNat_of_zero_le h3
  by_cases hfit : x ≤ 120
  · rw [write_big_char_eq F hW hH c x y h10 h12 hfit (by omega) s hX hY]
    exact ⟨by simp only; omega, by simp only; omega, by simp only; omega, by simp only; omega⟩
  · have hu : u8 (s.ks_Y + 2) = y + 2 := by
      rw [hY]
      unfold u8
      omega
    have hg := gotoxy_eq 0 (y + 2) (by omega) s
    rw [write_big_char_wrap F hW c x h10 h12 (by omega) (by omega) s hX, hu,
      write_big_char_eq F hW hH c 0 ((y + 2) % 8) h10 h12 (by omega)
        (Nat.mod_lt _ (by omega)) _ (by rw [hg]) (by rw [hg])]
    exact ⟨by simp only; omega, by simp only; omega, by simp only; omega, by simp only; omega⟩

/-- C19: cursor range invariant.  The predicate 0 <= ks_X <= 128 and
0 <= ks_Y <= 7 is preserved by `ks0108bh_gotox x` with x <= 127, by
`ks0108bh_gotoy y` for every 8-bit y, by `ks0108bh_write_data`, by
`ks0108bh_clear`, by `ks0108bh_setall`, and by rendering any string in the
small font and in the big font (8 columns, 2 page-rows; the arguments
`ks_X - 8`, `ks_X + 8` and `ks_Y - 2` are truncated to 8 bits). -/
theorem cursor_range_invariant (F5 : Font57) (F8 : Font816) (hW : F8.W = 8) (hH : F8.H = 2)
    (x y d : Nat) (hx : x ≤ 127) (hy : y < 256) (str : List Nat) (s : KS)
    (h : CursorInRange s) :
    CursorInRange (ks0108bh_gotox x s)
    ∧ CursorInRange (ks0108bh_gotoy y s)
    ∧ CursorInRange (ks0108bh_write_data d s)
    ∧ CursorInRange (ks0108bh_clear s)
    ∧ CursorInRange (ks0108bh_setall s)
    ∧ CursorInRange (ks0108bh_write_small F5 str s)
    ∧ CursorInRange (ks0108bh_write_big F8 str s) := by
  have _ := hy
  refine ⟨inRange_gotox x (by omega) s h, inRange_gotoy y s h, inRange_write_data d s h,
    ?_, ?_, ?_, ?_⟩
  · rw [clear_eq]
    exact ⟨by simp, by simp, by simp, by simp⟩
  · rw [setall_eq]
    exact ⟨by simp, by simp, by simp, by simp⟩
  · induction str generalizing s with
    | nil => exact h
    | cons c str ih =>
      by_cases h0 : c = 0
      · simpa [ks0108bh_write_small, h0] using h
      · simp only [ks0108bh_write_small, h0, if_false]
        exact ih _ (inRange_small_char F5 c s h)
  · induction str generalizing s with
    | nil => exact h
    | cons c str ih =>
      by_cases h0 : c = 0
      · simpa [ks0108bh_write_big, h0] using h
      · simp only [ks0108bh_write_big, h0, if_false]
        exact ih _ (inRange_big_char F8 hW hH c s h)

theorem cursor_range_invariant_witness :
    sampleFont8.W = 8 ∧ sampleFont8.H = 2 ∧ 127 ≤ 127 ∧ 200 < 256
    ∧ CursorInRange ⟨128, 7, []⟩ ∧
    (CursorInRange (ks0108bh_gotox 127 ⟨128, 7, []⟩)
    ∧ CursorInRange (ks0108bh_gotoy 200 ⟨128, 7, []⟩)
    ∧ CursorInRange (ks0108bh_write_data 0x5A ⟨128, 7, []⟩)
    ∧ CursorInRange (ks0108bh_clear ⟨128, 7, []⟩)
    ∧ CursorInRange (ks0108bh_setall ⟨128, 7, []⟩)
    ∧ CursorInRange (ks0108bh_write_small sampleFont5 [72, 105, 10, 33] ⟨128, 7, []⟩)
    ∧ CursorInRange (ks0108bh_write_big sampleFont8 [72, 105, 10, 33] ⟨128, 7, []⟩)) :=
  ⟨rfl, rfl, by decide, by decide, by decide,
    cursor_range_invariant sampleFont5 sampleFont8 rfl rfl 127 200 0x5A (by decide) (by decide)
      [72, 105, 10, 33] ⟨128, 7, []⟩ (by decide)⟩

/-! ## Lua entry points -/

theorem u8_pred (n : Nat) (h1 : 1 ≤ n) (h : n ≤ 256) : u8 ((n : Int) - 1) = n - 1 := by
  unfold u8
  omega

/-- C15: public coordinates are 1-based.  For every x in 1..128 and y in
1..8, `ks0108b_gotoxy x y` is `ks0108bh_gotoxy (x - 1) (y - 1)` and leaves
the cursor at (x - 1, y - 1); `ks0108b_write` with font, x and y given
performs the same positioning before rendering the string in the selected
font; with the string alone, or the string and the font, it renders from
the current cursor without any positioning. -/
theorem public_coords_one_based (F5 : Font57) (F8 : Font816) (str : List Nat) (font : Int)
    (x y : Nat) (hx1 : 1 ≤ x) (hx : x ≤ 128) (hy1 : 1 ≤ y) (hy : y ≤ 8) (s : KS) :
    ks0108b_gotoxy (x : Int) (y : Int) s = ks0108bh_gotoxy (x - 1) (y - 1) s
    ∧ (ks0108b_gotoxy (x : Int) (y : Int) s).ks_X = ((x - 1 : Nat) : Int)
    ∧ (ks0108b_gotoxy (x : Int) (y : Int) s).ks_Y = ((y - 1 : Nat) : Int)
    ∧ ks0108b_write F5 F8 str [some font, some (x : Int), some (y : Int)] s
        = (if u8 font = KS0108B_BIG then
            ks0108bh_write_big F8 str (ks0108bh_gotoxy (x - 1) (y - 1) s)
          else ks0108bh_write_small F5 str (ks0108bh_gotoxy (x - 1) (y - 1) s))
    ∧ ks0108b_write F5 F8 str [] s = ks0108bh_write_small F5 str s
    ∧ ks0108b_write F5 F8 str [some font] s
        = (if u8 font = KS0108B_BIG then ks0108bh_write_big F8 str s
          else ks0108bh_write_small F5 str s) := by
  have hxu := u8_pred x hx1 (by omega)
  have hyu := u8_pred y hy1 (by omega)
  have hx8 : u8 (x : Int) = x := by
    rw [u8_natCast]
    omega
  have hy8 : u8 (y : Int) = y := by
    rw [u8_natCast]
    omega
  have hg : ks0108b_gotoxy (x : Int) (y : Int) s = ks0108bh_gotoxy (x - 1) (y - 1) s := by
    simp only [ks0108b_gotoxy, hxu, hyu]
  have hm : (y - 1) % 8 = y - 1 := by omega
  refine ⟨hg, ?_, ?_, ?_, ?_, ?_⟩
  · rw [hg, gotoxy_eq (x - 1) (y - 1) (by omega)]
  · rw [hg, gotoxy_eq (x - 1) (y - 1) (by omega), hm]
  · simp [ks0108b_write, luaL_optinteger, hx8, hy8, hxu, hyu]
  · simp [ks0108b_write, luaL_optinteger, KS0108B_SMALL, KS0108B_BIG, u8]
  · simp [ks0108b_write, luaL_optinteger]

theorem public_coords_one_based_witness :
    1 ≤ 128 ∧ 128 ≤ 128 ∧ 1 ≤ 8 ∧ 8 ≤ 8 ∧
    (ks0108b_gotoxy ((128 : Nat) : Int) ((8 : Nat) : Int) KS.start
        = ks0108bh_gotoxy (128 - 1) (8 - 1) KS.start
    ∧ (ks0108b_gotoxy ((128 : Nat) : Int) ((8 : Nat) : Int) KS.start).ks_X
        = ((128 - 1 : Nat) : Int)
    ∧ (ks0108b_gotoxy ((128 : Nat) : Int) ((8 : Nat) : Int) KS.start).ks_Y
        = ((8 - 1 : Nat) : Int)
    ∧ ks0108b_write sampleFont5 sampleFont8 [72, 105]
          [some 1, some ((128 : Nat) : Int), some ((8 : Nat) : Int)] KS.start
        = (if u8 1 = KS0108B_BIG then
            ks0108bh_write_big sampleFont8 [72, 105] (ks0108bh_gotoxy (128 - 1) (8 - 1) KS.start)
          else ks0108bh_write_small sampleFont5 [72, 105]
            (ks0108bh_gotoxy (128 - 1) (8 - 1) KS.start))
    ∧ ks0108b_write sampleFont5 sampleFont8 [72, 105] [] KS.start
        = ks0108bh_write_small sampleFont5 [72, 105] KS.start
    ∧ ks0108b_write sampleFont5 sampleFont8 [72, 105] [some 1] KS.start
        = (if u8 1 = KS0108B_BIG then ks0108bh_write_big sampleFont8 [72, 105] KS.start
          else ks0108bh_write_small sampleFont5 [72, 105] KS.start)) :=
  ⟨by decide, by decide, by decide, by decide,
    public_coords_one_based sampleFont5 sampleFont8 [72, 105] 1 128 8 (by decide) (by decide)
      (by decide) (by decide) KS.start⟩

end KS0108B
